import Mathlib

/-!
# Cache shard (`arangod/Cache/Cache.cpp`): embedding and checked properties

The member functions of `arangodb::cache::Cache` are translated function by
function.  A cache is a record of its data members; the `Table` objects that
its `std::shared_ptr<Table>` values point to live in a store indexed by
addresses (`Nat`).  Calls into collaborators whose code is not part of
`Cache.cpp` (the `Manager`, `Table::clear`, `Table::signalEvictions`,
`migrateBucket`) are recorded, in order, as a list of `Call`s.

Conventions.
* `std::uint64_t` values are natural numbers; where `Cache.cpp` itself does
  64-bit arithmetic that can wrap, the reduction `% 2 ^ 64` is written out.
* `double` values and operations follow IEEE 754 binary64 with round-to-nearest,
  ties-to-even (section "Double arithmetic").
* `steady_clock` readings and the stored request times are `Int` tick counts.
* A result `none` of an `Option`-valued operation stands for a run that has
  left defined behaviour (null `shared_ptr` dereference, out-of-range
  conversion or shift) or, for `shutdown`, that is still waiting.
-/

namespace ArangoCache

/-! ## Data model -/

/-- Modelled from the spec: `Metadata` (declared in `Cache/Metadata.h`, not part
of the sources at hand) with the attributes the specification lists: allocated
size, usage, soft and hard usage limit and the two flags. -/
structure Metadata where
  allocatedSize : Nat
  usage : Nat
  softUsageLimit : Nat
  hardUsageLimit : Nat
  resizing : Bool
  migrating : Bool
  deriving DecidableEq, Repr

/-- Modelled from the spec: a `Table` object (declared in `Cache/Table.h`, not
part of the sources at hand): its exponent, its memory-usage estimate, the
optional auxiliary table it points to, and what `enable` and
`setTypeSpecifics` leave behind. -/
structure Table where
  logSize : Nat
  memoryUsage : Nat
  auxiliary : Option Nat
  enabled : Bool
  slotsPerBucket : Nat
  deriving DecidableEq, Repr

/-- Modelled from the spec: `Table::size()`, the number of primary buckets,
`2 ^ logSize`. -/
def Table.size (t : Table) : Nat := 2 ^ t.logSize

/-- Calls that leave `Cache.cpp`, in the order they are made. -/
inductive Call where
  | managerRequestGrow (cache : Nat)
  | managerRequestMigrate (cache : Nat) (requestedLogSize : Nat)
  | reclaimTable (table : Nat) (internal : Bool)
  | unregisterCache (id : Nat)
  | tableClear (table : Nat)
  | signalEvictions (table : Nat)
  | migrateBucket (table : Nat) (index : Nat) (newTable : Nat)
  deriving DecidableEq, Repr

/-- The data members of `Cache` as initialised by its constructor, together
with `tables`, the store of `Table` objects addressed by the shared pointers.
`findStats` is the `StatBuffer` seen through its frequency report
(`getFrequencies()`), `none` when no buffer was allocated. -/
structure Cache where
  shutdown : Bool
  enableWindowedStats : Bool
  findHits : Nat
  findMisses : Nat
  id : Nat
  metadata : Metadata
  table : Option Nat
  slotsPerBucket : Nat
  insertsTotal : Nat
  insertEvictions : Nat
  migrateRequestTime : Int
  resizeRequestTime : Int
  findStats : Option (List (Nat × Nat))
  tables : Nat → Table

/-- Replace the `Table` object stored at address `a`. -/
def Cache.setTable (c : Cache) (a : Nat) (t : Table) : Cache :=
  { c with tables := fun b => if b = a then t else c.tables b }

/-! ## Metadata operations -/

/-- Modelled from the spec: `Metadata::adjustUsageIfAllowed` (defined in
`Cache/Metadata.cpp`, not part of the sources at hand).  A negative change
releases bytes; a non-negative one is granted while
`usage + Δ ≤ hardUsageLimit`.  Returns the new metadata and whether the change
was applied. -/
def Metadata.adjustUsageIfAllowed (m : Metadata) (usageChange : Int) : Metadata × Bool :=
  if usageChange < 0 then
    ({ m with usage := m.usage - usageChange.natAbs }, true)
  else if m.usage + usageChange.natAbs ≤ m.hardUsageLimit then
    ({ m with usage := m.usage + usageChange.natAbs }, true)
  else
    (m, false)

/-- Modelled from the spec: `Metadata::changeTable` (defined in
`Cache/Metadata.cpp`, not part of the sources at hand) "updates
`allocatedSize`" for a new table size.  How the new allocated size is computed
is not given; it is the parameter `alloc`. -/
def Metadata.changeTable (alloc : Metadata → Nat → Nat) (m : Metadata) (newTableSize : Nat) :
    Metadata :=
  { m with allocatedSize := alloc m newTableSize }

/-- Modelled from the spec: `Metadata::toggleMigrating` (defined in
`Cache/Metadata.cpp`, not part of the sources at hand) flips the `Migrating`
flag. -/
def Metadata.toggleMigrating (m : Metadata) : Metadata :=
  { m with migrating := !m.migrating }

/-! ## Double arithmetic

`Cache.cpp` computes with `double` in `sizeHint`, `hitRates` and `reportInsert`.
The operations used there are modelled after IEEE 754 binary64 with
round-to-nearest, ties-to-even: 53-bit mantissas, quantum exponents from
`-1074` (subnormals) to `971`, overflow to infinity. -/

/-- The values of type `double` that arise in `Cache.cpp`: finite non-negative
values `mant * 2 ^ exp`, positive infinity and NaN.  Signs are not modelled:
every double formed in `Cache.cpp` comes from unsigned counts, a fill ratio or
a rate threshold.  The operations below return finite values in canonical
form: zero is `finite 0 (-1074)`, otherwise `2 ^ 52 ≤ mant < 2 ^ 53`, or
`mant < 2 ^ 52` and `exp = -1074`. -/
inductive Double where
  | finite (mant : Nat) (exp : Int)
  | inf
  | nan
  deriving DecidableEq, Repr

/-- The binary logarithm of `n`, rounded down, by halving; `fuel` bounds the
number of halvings. -/
def floorLog2Aux : Nat → Nat → Nat
  | 0, _ => 0
  | fuel + 1, n => if n < 2 then 0 else floorLog2Aux fuel (n / 2) + 1

/-- The binary logarithm of `n`, rounded down (`0` for `n = 0`). -/
def floorLog2 (n : Nat) : Nat := floorLog2Aux n n

/-- The binary logarithm of the ratio `a / b`, rounded down, for positive `a`
and `b`. -/
def floorLog2Ratio (a b : Nat) : Int :=
  let l : Int := (floorLog2 a : Int) - (floorLog2 b : Int)
  if b * 2 ^ l.toNat ≤ a * 2 ^ (-l).toNat then l else l - 1

/-- The integer nearest to `num / den`, ties going to the even one. -/
def roundHalfEven (num den : Nat) : Nat :=
  let q := num / den
  let r := num % den
  if 2 * r < den then q
  else if den < 2 * r then q + 1
  else if q % 2 = 0 then q else q + 1

/-- The double nearest to the ratio `a / b` (`b` positive), ties to even:
the ratio is scaled by the quantum `2 ^ e` that leaves 53 bits (or by
`2 ^ (-1074)` in the subnormal range), rounded to an integer mantissa, and
renormalised when the mantissa reaches `2 ^ 53`; values of `2 ^ 1024` and more
become infinity. -/
def Double.round (a b : Nat) : Double :=
  if a = 0 then Double.finite 0 (-1074)
  else
    let e : Int := max (floorLog2Ratio a b - 52) (-1074)
    let m := roundHalfEven (a * 2 ^ (-e).toNat) (b * 2 ^ e.toNat)
    let m1 : Nat := if m = 2 ^ 53 then 2 ^ 52 else m
    let e1 : Int := if m = 2 ^ 53 then e + 1 else e
    if e1 > 971 then Double.inf else Double.finite m1 e1

/-- Conversion of an unsigned integer to double: `static_cast<double>` of a
`std::uint64_t` or `std::size_t`, and the integer literals of the source. -/
def Double.ofNat (n : Nat) : Double := Double.round n 1

/-- Multiplication of doubles. -/
def Double.mul : Double → Double → Double
  | Double.finite m1 e1, Double.finite m2 e2 =>
    Double.round (m1 * m2 * 2 ^ (e1 + e2).toNat) (2 ^ (-(e1 + e2)).toNat)
  | Double.finite m _, Double.inf => if m = 0 then Double.nan else Double.inf
  | Double.inf, Double.finite m _ => if m = 0 then Double.nan else Double.inf
  | Double.inf, Double.inf => Double.inf
  | _, _ => Double.nan

/-- Division of doubles. -/
def Double.div : Double → Double → Double
  | Double.finite m1 e1, Double.finite m2 e2 =>
    if m2 = 0 then (if m1 = 0 then Double.nan else Double.inf)
    else Double.round (m1 * 2 ^ (e1 - e2).toNat) (m2 * 2 ^ (e2 - e1).toNat)
  | Double.finite _ _, Double.inf => Double.finite 0 (-1074)
  | Double.inf, Double.finite _ _ => Double.inf
  | _, _ => Double.nan

/-- Conversion `static_cast<std::uint64_t>(double)`: truncation toward zero,
defined only when the truncated value is a 64-bit unsigned number. -/
def Double.toUInt64 : Double → Option Nat
  | Double.finite m e =>
    let v := m * 2 ^ e.toNat / 2 ^ (-e).toNat
    if v < 2 ^ 64 then some v else none
  | _ => none

/-- The exact value of a finite double, as a rational number. -/
def Double.toRat : Double → Option ℚ
  | Double.finite m e => some ((m : ℚ) * (2 : ℚ) ^ e)
  | _ => none

/-! ## Observers (`Cache.cpp` lines 85-119 and 173-202) -/

/-- `Cache::isShutdown()`. -/
def isShutdown (c : Cache) : Bool := c.shutdown

/-- `Cache::size()`: the state is passed through, the read lock being released
on return. -/
def size (c : Cache) : Cache × Nat :=
  if isShutdown c then (c, 0) else (c, c.metadata.allocatedSize)

/-- `Cache::usageLimit()`. -/
def usageLimit (c : Cache) : Cache × Nat :=
  if isShutdown c then (c, 0) else (c, c.metadata.softUsageLimit)

/-- `Cache::usage()`. -/
def usage (c : Cache) : Cache × Nat :=
  if isShutdown c then (c, 0) else (c, c.metadata.usage)

/-- `Cache::sizeAndUsage()`. -/
def sizeAndUsage (c : Cache) : Cache × (Nat × Nat) :=
  if isShutdown c then (c, (0, 0)) else (c, (c.metadata.allocatedSize, c.metadata.usage))

/-- `Cache::isResizingFlagSet()`. -/
def isResizingFlagSet (c : Cache) : Bool := c.metadata.resizing

/-- `Cache::isMigratingFlagSet()`. -/
def isMigratingFlagSet (c : Cache) : Bool := c.metadata.migrating

/-- `Cache::isResizingOrMigratingFlagSet()`. -/
def isResizingOrMigratingFlagSet (c : Cache) : Bool :=
  c.metadata.resizing || c.metadata.migrating

/-- `Cache::isResizing()`. -/
def isResizing (c : Cache) : Bool :=
  if isShutdown c then false else isResizingFlagSet c

/-- `Cache::isMigrating()`. -/
def isMigrating (c : Cache) : Bool :=
  if isShutdown c then false else isMigratingFlagSet c

/-- `Cache::canResize()`. -/
def canResize (c : Cache) : Bool :=
  if isShutdown c then false else !isResizingOrMigratingFlagSet c

/-! ## Structural requests (`Cache.cpp` lines 121-134 and 210-260) -/

/-- `Cache::requestGrow()`.  `now1` and `now2` are the two readings of the
steady clock, `locked` tells whether the bounded attempt (`triesSlow`) to take
`_taskLock` succeeded, and `reply` is what `Manager::requestGrow` returns when
it is called: acceptance and cooldown expiry. -/
def requestGrow (c : Cache) (now1 now2 : Int) (locked : Bool) (reply : Bool × Int) :
    Cache × List Call :=
  if isShutdown c || decide (now1 ≤ c.resizeRequestTime) then (c, [])
  else if locked then
    if now2 > c.resizeRequestTime then
      let ok := !c.metadata.resizing
      if ok then
        ({ c with resizeRequestTime := reply.2 }, [Call.managerRequestGrow c.id])
      else (c, [])
    else (c, [])
  else (c, [])

/-- `Cache::requestMigrate(requestedLogSize)`.  `now1`, `now2` and `reply` are as
for `requestGrow`; `_taskLock` is taken without a retry bound.  The result is
`none` when the table pointer is null where the code dereferences it. -/
def requestMigrate (c : Cache) (requestedLogSize : Nat) (now1 now2 : Int)
    (reply : Bool × Int) : Option (Cache × List Call) :=
  if isShutdown c || decide (now1 ≤ c.migrateRequestTime) then some (c, [])
  else if now2 > c.migrateRequestTime then
    match c.table with
    | none => none
    | some t =>
      let ok := !c.metadata.migrating && decide (requestedLogSize ≠ (c.tables t).logSize)
      if ok then
        some ({ c with migrateRequestTime := reply.2 },
          [Call.managerRequestMigrate c.id requestedLogSize])
      else some (c, [])
  else some (c, [])

/-- The exponent loop of `Cache::sizeHint` (lines 129-132), started at exponent
`k` with `fuel` iterations left.  `1 << k` is `2 ^ k` reduced modulo `2 ^ 64`,
and is defined only for `k < 64`. -/
def requestedLogSizeLoop (numBuckets : Nat) : Nat → Nat → Option Nat
  | 0, _ => none
  | fuel + 1, k =>
    if k < 64 then
      if 2 ^ k % 2 ^ 64 < numBuckets then requestedLogSizeLoop numBuckets fuel (k + 1)
      else some k
    else none

/-- The bucket count of `Cache::sizeHint` (lines 126-128): the quotient
`double(numElements) / (double(slotsPerBucket) * idealUpperFillRatio)` formed in
double arithmetic and converted to `std::uint64_t`.  `none`: the conversion is
out of range (the quotient is infinite, NaN or at least `2 ^ 64`). -/
def sizeHintBuckets (numElements slotsPerBucket : Nat) (idealUpperFillRatio : Double) :
    Option Nat :=
  Double.toUInt64
    (Double.div (Double.ofNat numElements)
      (Double.mul (Double.ofNat slotsPerBucket) idealUpperFillRatio))

/-- The value of `requestedLogSize` that `Cache::sizeHint` passes on (lines
126-132), for `numElements` expected elements, `slotsPerBucket` slots per
bucket and the Manager's `idealUpperFillRatio`. -/
def sizeHintLogSize (numElements slotsPerBucket : Nat) (idealUpperFillRatio : Double) :
    Option Nat :=
  match sizeHintBuckets numElements slotsPerBucket idealUpperFillRatio with
  | none => none
  | some numBuckets => requestedLogSizeLoop numBuckets 65 0

/-- `Cache::sizeHint(numElements)`. -/
def sizeHint (idealUpperFillRatio : Double) (c : Cache) (numElements : Nat) (now1 now2 : Int)
    (reply : Bool × Int) : Option (Cache × List Call) :=
  if isShutdown c then some (c, [])
  else
    match sizeHintLogSize numElements c.slotsPerBucket idealUpperFillRatio with
    | none => none
    | some requestedLogSize => requestMigrate c requestedLogSize now1 now2 reply

/-- The target the specification words describe for `sizeHint`: the exponent of
the smallest power of two that is at least
`ceil(numElements / (slotsPerBucket * idealUpperFillRatio))`, the ratio given
by its exact value. -/
def specSizeHintLogSize (numElements slotsPerBucket : Nat) (idealUpperFillRatio : ℚ) : Nat :=
  Nat.clog 2 ⌈(numElements : ℚ) / ((slotsPerBucket : ℚ) * idealUpperFillRatio)⌉₊

/-! ## Hit rates (`Cache.cpp` lines 136-171) -/

/-- `Cache::hitRates()`: the pair `(lifetimeRate, windowedRate)`, `Double.nan`
standing for an undefined rate.  `findHit` is the numeric code of
`Stat::findHit` (declared in `Cache/Common.h`, not part of the sources at
hand).  The counters' values and the report's frequencies are
`std::uint64_t`, so the sums the code forms are reduced modulo `2 ^ 64`. -/
def hitRates (findHit : Nat) (c : Cache) : Double × Double :=
  let currentMisses : Nat := c.findMisses
  let currentHits : Nat := c.findHits
  let lifetimeRate : Double :=
    if (currentMisses + currentHits) % 2 ^ 64 > 0 then
      Double.mul (Double.ofNat 100)
        (Double.div (Double.ofNat currentHits)
          (Double.ofNat ((currentHits + currentMisses) % 2 ^ 64)))
    else Double.nan
  let windowedRate : Double :=
    if c.enableWindowedStats then
      match c.findStats with
      | none => Double.nan
      | some [(code, _)] => if code = findHit then Double.ofNat 100 else Double.ofNat 0
      | some [(code0, freq0), (_, freq1)] =>
        let hits : Nat := if code0 = findHit then freq0 else freq1
        let misses : Nat := if code0 = findHit then freq1 else freq0
        if (hits + misses) % 2 ^ 64 > 0 then
          Double.mul (Double.ofNat 100)
            (Double.div (Double.ofNat hits) (Double.ofNat ((hits + misses) % 2 ^ 64)))
        else Double.nan
      | some _ => Double.nan
    else Double.nan
  (lifetimeRate, windowedRate)

/-! ## Memory reclamation and the insert report (`Cache.cpp` lines 270-326) -/

/-- Conversion `static_cast<std::int64_t>(std::uint64_t)`: two's complement. -/
def toInt64 (n : Nat) : Int :=
  if n % 2 ^ 64 < 2 ^ 63 then ((n % 2 ^ 64 : Nat) : Int) else ((n % 2 ^ 64 : Nat) : Int) - 2 ^ 64

/-- `Cache::reclaimMemory(size)`: returns whether usage is within the soft
limit afterwards. -/
def reclaimMemory (c : Cache) (size : Nat) : Cache × Bool :=
  let m := (c.metadata.adjustUsageIfAllowed (-(toInt64 size))).1
  ({ c with metadata := m }, decide (m.softUsageLimit ≥ m.usage))

/-- The waiting loop of `Cache::shutdown()` (lines 340-349).  While a flag is
set the thread sleeps without holding `_taskLock`; `env` is what the other
threads do to the cache during one sleep, `fuel` bounds the number of sleeps.
`none`: still waiting when the fuel is used up. -/
def shutdownWait (env : Cache → Cache) : Nat → Cache → Option Cache
  | 0, c => if !isResizingOrMigratingFlagSet c then some c else none
  | fuel + 1, c =>
    if !isResizingOrMigratingFlagSet c then some c else shutdownWait env fuel (env c)

/-- `Cache::shutdown()`.  `alloc` is the parameter of `Metadata.changeTable`;
`env` and `fuel` are those of `shutdownWait`. -/
def shutdown (alloc : Metadata → Nat → Nat) (env : Cache → Cache) (fuel : Nat) (c : Cache) :
    Option (Cache × List Call) :=
  if c.shutdown then some (c, [])
  else
    match shutdownWait env fuel { c with shutdown := true } with
    | none => none
    | some c1 =>
      let released : Cache × List Call :=
        match c1.table with
        | none => (c1, [])
        | some t =>
          let extra := (c1.tables t).auxiliary
          let c2 := c1.setTable t { c1.tables t with auxiliary := none }
          let extraCalls : List Call :=
            match extra with
            | none => []
            | some x => [Call.tableClear x, Call.reclaimTable x false]
          (c2, extraCalls ++ [Call.tableClear t, Call.reclaimTable t false])
      let c3 := { released.1 with metadata := released.1.metadata.changeTable alloc 0 }
      some ({ c3 with table := none }, released.2 ++ [Call.unregisterCache c3.id])

/-! ## The free-memory sweep (`Cache.cpp` lines 393-418) -/

/-- The callback `cb` that `Cache::freeMemory()` hands to `freeMemoryWhile`
(lines 400-411): given the bytes reclaimed by one bucket visit, returns the
cache and whether the sweep is to continue. -/
def freeMemoryCallback (c : Cache) (reclaimed : Nat) : Cache × Bool :=
  if reclaimed > 0 then
    let r := reclaimMemory c reclaimed
    if r.2 then (r.1, false) else (r.1, !isShutdown r.1)
  else (c, !isShutdown c)

/-- `Cache::freeMemory()`.  `freeMemoryWhile` is the virtual member of that
name, defined in the cache variants (not part of the sources at hand): it
receives the callback and the cache and returns the cache and its verdict.
The debug assertion that the `Resizing` flag is set is a precondition. -/
def freeMemory (freeMemoryWhile : (Cache → Nat → Cache × Bool) → Cache → Cache × Bool)
    (c : Cache) : Cache × Bool :=
  if isShutdown c then (c, false)
  else
    let r := reclaimMemory c 0
    if !r.2 then freeMemoryWhile freeMemoryCallback r.1 else (r.1, r.2)

/-! ## Migration (`Cache.cpp` lines 420-478) -/

/-- Modelled from the spec: `migrateBucket` (virtual, defined in the cache
variants, not part of the sources at hand) moves the slots of one primary
bucket to the new table and evicts those that do not fit, usage decreasing
accordingly.  `evictedBytes` is the size of what is evicted. -/
def migrateBucket (c : Cache) (evictedBytes : Nat) : Cache :=
  (reclaimMemory c evictedBytes).1

/-- The bucket loop of `Cache::migrate` (lines 446-450) over table `t`, with
`remaining` buckets left and `i` the next index.  `evicted i` is what migrating
bucket `i` evicts.  `shutdownAt = some i` places a concurrent `shutdown()`
setting the `_shutdown` flag just before bucket `i` is visited. -/
def migrateLoop (evicted : Nat → Nat) (shutdownAt : Option Nat) (t newTable : Nat) :
    Nat → Nat → Cache → Cache × List Call
  | 0, _, c => (c, [])
  | remaining + 1, i, c =>
    let c0 := if shutdownAt = some i then { c with shutdown := true } else c
    let c1 := migrateBucket c0 (evicted i)
    let rest := migrateLoop evicted shutdownAt t newTable remaining (i + 1) c1
    (rest.1, Call.migrateBucket t i newTable :: rest.2)

/-- `Cache::migrate(newTable)`: the cache, the returned flag and the calls
made.  `alloc` is the parameter of `Metadata.changeTable`; `evicted` and
`shutdownAt` are those of `migrateLoop`.  The scope guard toggles `Migrating`
on the early return and is cancelled on the other path, after the explicit
toggle.  The debug assertions (the flag is set, no auxiliary was attached)
are preconditions.  `none`: the table pointer is null where it is
dereferenced. -/
def migrate (alloc : Metadata → Nat → Nat) (evicted : Nat → Nat) (shutdownAt : Option Nat)
    (c : Cache) (newTable : Nat) : Option (Cache × Bool × List Call) :=
  if isShutdown c then
    some ({ c with metadata := c.metadata.toggleMigrating }, false, [])
  else
    let c1 := c.setTable newTable
      { c.tables newTable with slotsPerBucket := c.slotsPerBucket, enabled := true }
    match c1.table with
    | none => none
    | some t =>
      let c2 := c1.setTable t { c1.tables t with auxiliary := some newTable }
      let looped := migrateLoop evicted shutdownAt t newTable (c2.tables t).size 0 c2
      let c3 := looped.1
      match c3.table with
      | none => none
      | some oldTable =>
        let c4 := { c3 with table := some newTable }
        let c5 := c4.setTable oldTable { c4.tables oldTable with auxiliary := none }
        let c6 := { c5 with metadata :=
          (c5.metadata.changeTable alloc (c5.tables newTable).memoryUsage).toggleMigrating }
        some (c6, true,
          looped.2 ++ [Call.tableClear oldTable, Call.reclaimTable oldTable false])

/-! ## Sample states -/

/-- A table of `2 ^ 8` buckets with no auxiliary attached. -/
def sampleTable : Table :=
  { logSize := 8, memoryUsage := 4096, auxiliary := none, enabled := true, slotsPerBucket := 5 }

/-- A running cache whose current table is at address `1`; every address holds
a `sampleTable`. -/
def sampleCache : Cache :=
  { shutdown := false, enableWindowedStats := true, findHits := 3, findMisses := 1, id := 7,
    metadata := { allocatedSize := 8192, usage := 100, softUsageLimit := 900,
                  hardUsageLimit := 1000, resizing := false, migrating := false },
    table := some 1, slotsPerBucket := 5, insertsTotal := 0, insertEvictions := 0,
    migrateRequestTime := 10, resizeRequestTime := 10,
    findStats := some [(1, 3), (2, 1)], tables := fun _ => sampleTable }

/-! ## Reading the call record -/

/-- How many times table `t` was handed to `Manager::reclaimTable`. -/
def reclaimCount (t : Nat) (calls : List Call) : Nat :=
  calls.countP fun x => match x with
    | Call.reclaimTable a _ => decide (a = t)
    | _ => false

/-- How many times `clear()` was called on table `t`. -/
def clearCount (t : Nat) (calls : List Call) : Nat :=
  calls.countP fun x => match x with
    | Call.tableClear a => decide (a = t)
    | _ => false

/-- The ids passed to `Manager::unregisterCache`, in order. -/
def unregisterCalls (calls : List Call) : List Nat :=
  calls.filterMap fun x => match x with
    | Call.unregisterCache i => some i
    | _ => none

/-- A sample allocation rule for `Metadata.changeTable`. -/
def sampleAlloc (m : Metadata) (tableSize : Nat) : Nat := m.hardUsageLimit + tableSize

/-- The sample cache after shutdown. -/
def stoppedCache : Cache := { sampleCache with shutdown := true, table := none }

/-- What a bucket visit leaves alone: `c'` differs from `c` at most in the
usage count and in the shutdown flag. -/
def SameFrame (c c' : Cache) : Prop :=
  c'.table = c.table ∧ c'.tables = c.tables ∧ c'.id = c.id ∧
  c'.metadata.migrating = c.metadata.migrating ∧
  c'.metadata.resizing = c.metadata.resizing ∧
  c'.metadata.allocatedSize = c.metadata.allocatedSize ∧
  c'.metadata.softUsageLimit = c.metadata.softUsageLimit ∧
  c'.metadata.hardUsageLimit = c.metadata.hardUsageLimit

/-- The sample cache with a migration approved: the `Migrating` flag is set. -/
def migratingCache : Cache :=
  { sampleCache with metadata := { sampleCache.metadata with migrating := true } }

/-- The sample cache with hit and miss counters whose 64-bit sum wraps to 1. -/
def wrappedCache : Cache := { sampleCache with findHits := 2 ^ 64 - 1, findMisses := 2 }

/-- The sample cache after one sampled hit and two sampled misses. -/
def oneInThreeCache : Cache := { sampleCache with findHits := 1, findMisses := 2 }

/-- The sample cache while resizing, with usage above the soft limit. -/
def resizingCache : Cache :=
  { sampleCache with metadata := { sampleCache.metadata with usage := 950, resizing := true } }

/-- Modelled from the spec: the smallest table exponent, `minLogSize = 8`
(declared in `Cache/Table.h`, not part of the sources at hand). -/
def minLogSize : Nat := 8

/-! ## Checked properties -/

/-! ### The exponent loop -/

/-- From exponent `k`, with `d` steps to go to `L` and more than `d` iterations
of fuel, the exponent loop stops at `L`, provided `L ≤ 63` is the first
exponent whose power of two reaches `n`. -/
theorem requestedLogSizeLoop_reaches (n L : Nat) (hL : L ≤ 63) (hn : n ≤ 2 ^ L)
    (hlt : ∀ j, j < L → 2 ^ j < n) :
    ∀ d k fuel, k + d = L → d < fuel → requestedLogSizeLoop n fuel k = some L := by
  intro d
  induction d with
  | zero =>
    intro k fuel hk hf
    obtain ⟨f, rfl⟩ : ∃ f, fuel = f + 1 := ⟨fuel - 1, by omega⟩
    have hkL : k = L := by omega
    subst hkL
    have h64 : (2 : Nat) ^ k < 2 ^ 64 := Nat.pow_lt_pow_right (by norm_num) (by omega)
    simp only [requestedLogSizeLoop]
    rw [if_pos (by omega), Nat.mod_eq_of_lt h64, if_neg (by omega)]
  | succ d ih =>
    intro k fuel hk hf
    obtain ⟨f, rfl⟩ : ∃ f, fuel = f + 1 := ⟨fuel - 1, by omega⟩
    have h64 : (2 : Nat) ^ k < 2 ^ 64 := Nat.pow_lt_pow_right (by norm_num) (by omega)
    simp only [requestedLogSizeLoop]
    rw [if_pos (by omega), Nat.mod_eq_of_lt h64, if_pos (hlt k (by omega))]
    exact ih (k + 1) f (by omega) (by omega)

/-- For a bucket count of at most `2 ^ 63` the exponent loop, run from `0`,
yields the least exponent whose power of two reaches the count. -/
theorem requestedLogSizeLoop_eq_clog (n : Nat) (hn : n ≤ 2 ^ 63) :
    requestedLogSizeLoop n 65 0 = some (Nat.clog 2 n) := by
  have hL : Nat.clog 2 n ≤ 63 := (Nat.le_pow_iff_clog_le (by norm_num)).1 hn
  refine requestedLogSizeLoop_reaches n (Nat.clog 2 n) hL (Nat.le_pow_clog (by norm_num) n)
    (fun j hj => (Nat.pow_lt_iff_lt_clog (by norm_num)).2 hj) (Nat.clog 2 n) 0 65 (by omega)
    (by omega)

/-! ### The bucket count of `sizeHint` -/

/-- The exponent `sizeHint` computes from a bucket count of at most `2 ^ 63`. -/
theorem sizeHintLogSize_eq_clog (numElements slotsPerBucket : Nat) (ratio : Double)
    (numBuckets : Nat) (hbuckets : sizeHintBuckets numElements slotsPerBucket ratio = some numBuckets)
    (hb : numBuckets ≤ 2 ^ 63) :
    sizeHintLogSize numElements slotsPerBucket ratio = some (Nat.clog 2 numBuckets) := by
  unfold sizeHintLogSize
  rw [hbuckets]
  exact requestedLogSizeLoop_eq_clog numBuckets hb

set_option maxRecDepth 100000 in
/-- The bucket counts of the sample runs, in double arithmetic: 23 / (5 * 1.0)
is 4.6 and truncates to 4; 257 / (5 * 0.2) is 257 because 5 * 0.2 rounds to 1.0;
`2 ^ 53 + 1` converts to `2 ^ 53`; `(2 ^ 64 - 1) / (5 * 0.25)` exceeds
`2 ^ 63`. -/
theorem sizeHintBuckets_samples :
    sizeHintBuckets 23 5 (Double.ofNat 1) = some 4 ∧
    sizeHintBuckets 257 5 (Double.round 1 5) = some 257 ∧
    sizeHintBuckets (2 ^ 53 + 1) 1 (Double.ofNat 1) = some (2 ^ 53) ∧
    sizeHintBuckets (2 ^ 64 - 1) 5 (Double.round 1 4) = some 14757395258967642112 := by
  decide

/-! ### C1 -/

/-- C1, refuted as stated.  With 23 expected elements, 5 slots per bucket and
fill ratio 1.0 the quotient is 4.6: the specification's rounding up asks for
exponent 3 (8 ≥ 5), while `sizeHint` truncates to 4 and requests exponent 2.
With `2 ^ 64 - 1` elements and fill ratio 0.25 the bucket count exceeds
`2 ^ 63` and the exponent loop has no defined result. -/
theorem sizeHint_rounds_down_counterexample :
    Double.toRat (Double.ofNat 1) = some 1 ∧
    specSizeHintLogSize 23 sampleCache.slotsPerBucket 1 = 3 ∧
    (sizeHint (Double.ofNat 1) sampleCache 23 11 12 (true, 50)).map Prod.snd
      = some [Call.managerRequestMigrate 7 2] ∧
    sizeHint (Double.ofNat 1) sampleCache 23 11 12 (true, 50)
      ≠ requestMigrate sampleCache (specSizeHintLogSize 23 sampleCache.slotsPerBucket 1)
          11 12 (true, 50) ∧
    sizeHint (Double.round 1 4) sampleCache (2 ^ 64 - 1) 11 12 (true, 50) = none := by
  have hceil : ⌈((23 : Nat) : ℚ) / (((5 : Nat) : ℚ) * 1)⌉₊ = 5 := by
    rw [Nat.ceil_eq_iff (by norm_num)]; norm_num
  have hspec : specSizeHintLogSize 23 sampleCache.slotsPerBucket 1 = 3 := by
    show Nat.clog 2 ⌈((23 : Nat) : ℚ) / (((5 : Nat) : ℚ) * 1)⌉₊ = 3
    rw [hceil]; simp [Nat.clog]
  have hcode : sizeHintLogSize 23 sampleCache.slotsPerBucket (Double.ofNat 1) = some 2 := by
    rw [show sampleCache.slotsPerBucket = 5 from rfl,
      sizeHintLogSize_eq_clog 23 5 _ 4 sizeHintBuckets_samples.1 (by norm_num)]
    simp [Nat.clog]
  have hrun : sizeHint (Double.ofNat 1) sampleCache 23 11 12 (true, 50)
      = requestMigrate sampleCache 2 11 12 (true, 50) := by
    unfold sizeHint
    rw [hcode]; rfl
  have hone : Double.ofNat 1 = Double.finite (2 ^ 52) (-52) := by decide
  refine ⟨?_, hspec, ?_, ?_, ?_⟩
  · rw [hone]
    simp only [Double.toRat]
    norm_num
  · rw [hrun]; rfl
  · rw [hrun, hspec]
    intro h
    have h2 := congrArg (Option.map Prod.snd) h
    exact absurd h2 (by decide)
  · unfold sizeHint sizeHintLogSize
    rw [show sampleCache.slotsPerBucket = 5 from rfl, sizeHintBuckets_samples.2.2.2]
    rfl

/-- C1 (amended): on a cache that is not shut down, `sizeHint(numElements)`
calls `requestMigrate(target)` where `target` is the exponent of the smallest
power of two that is at least the bucket count, the bucket count being the
quotient `double(numElements) / (double(slotsPerBucket) * idealUpperFillRatio)`
formed in double arithmetic and truncated toward zero, whenever that bucket
count is defined and at most `2 ^ 63`. -/
theorem sizeHint_requests_truncated_target (idealUpperFillRatio : Double) (c : Cache)
    (numElements : Nat) (now1 now2 : Int) (reply : Bool × Int) (numBuckets : Nat)
    (hrun : c.shutdown = false)
    (hbuckets : sizeHintBuckets numElements c.slotsPerBucket idealUpperFillRatio
      = some numBuckets)
    (hb : numBuckets ≤ 2 ^ 63) :
    sizeHint idealUpperFillRatio c numElements now1 now2 reply
      = requestMigrate c (Nat.clog 2 numBuckets) now1 now2 reply ∧
    numBuckets ≤ 2 ^ Nat.clog 2 numBuckets ∧
    ∀ j, numBuckets ≤ 2 ^ j → Nat.clog 2 numBuckets ≤ j := by
  refine ⟨?_, Nat.le_pow_clog (by norm_num) _, fun j hj =>
    (Nat.le_pow_iff_clog_le (by norm_num)).1 hj⟩
  unfold sizeHint
  simp only [isShutdown, hrun, Bool.false_eq_true, if_false,
    sizeHintLogSize_eq_clog numElements c.slotsPerBucket idealUpperFillRatio numBuckets
      hbuckets hb]

/-- C1 (amended), at 23 elements, 5 slots per bucket and fill ratio 1.0. -/
theorem sizeHint_requests_truncated_target_witness :
    sampleCache.shutdown = false ∧
    sizeHintBuckets 23 sampleCache.slotsPerBucket (Double.ofNat 1) = some 4 ∧
    4 ≤ 2 ^ 63 ∧
    sizeHint (Double.ofNat 1) sampleCache 23 11 12 (true, 50)
      = requestMigrate sampleCache (Nat.clog 2 4) 11 12 (true, 50) :=
  ⟨rfl, sizeHintBuckets_samples.1, by norm_num,
    (sizeHint_requests_truncated_target (Double.ofNat 1) sampleCache 23 11 12 (true, 50) 4 rfl
      sizeHintBuckets_samples.1 (by norm_num)).1⟩

/-- The requested exponents at the inputs where double rounding decides:
`2 ^ 53 + 1` elements ask for 53, 257 elements at 5 slots and ratio 0.2 ask
for 9. -/
theorem sizeHintLogSize_rounding_samples :
    sizeHintLogSize (2 ^ 53 + 1) 1 (Double.ofNat 1) = some 53 ∧
    sizeHintLogSize 257 5 (Double.round 1 5) = some 9 := by
  constructor
  · rw [sizeHintLogSize_eq_clog _ _ _ _ sizeHintBuckets_samples.2.2.1 (by norm_num)]
    rw [Nat.clog_pow 2 53 (by norm_num)]
  · rw [sizeHintLogSize_eq_clog _ _ _ _ sizeHintBuckets_samples.2.1 (by norm_num)]
    simp [Nat.clog]

/-! ### C2 -/

/-- C2: `size()`, `usage()`, `usageLimit()` and `sizeAndUsage()` leave the cache
state as it is; they return the Metadata snapshot (allocated size, usage, soft
usage limit, the pair of allocated size and usage) when the cache is not shut
down and `0`, `0`, `0`, `(0, 0)` when it is, whatever the Metadata holds; and
`sizeAndUsage()` is the pair of `size()` and `usage()`. -/
theorem observers_return_snapshot_or_zero (c : Cache) :
    (size c).1 = c ∧ (usage c).1 = c ∧ (usageLimit c).1 = c ∧ (sizeAndUsage c).1 = c ∧
    (size c).2 = (if c.shutdown then 0 else c.metadata.allocatedSize) ∧
    (usage c).2 = (if c.shutdown then 0 else c.metadata.usage) ∧
    (usageLimit c).2 = (if c.shutdown then 0 else c.metadata.softUsageLimit) ∧
    (sizeAndUsage c).2
      = (if c.shutdown then (0, 0) else (c.metadata.allocatedSize, c.metadata.usage)) ∧
    (sizeAndUsage c).2 = ((size c).2, (usage c).2) := by
  unfold size usage usageLimit sizeAndUsage isShutdown
  cases hs : c.shutdown <;> simp

/-! ### Shutdown -/

/-- With both flags clear the waiting loop of `shutdown` ends at once. -/
theorem shutdownWait_of_flags_clear (env : Cache → Cache) (fuel : Nat) (c : Cache)
    (h : isResizingOrMigratingFlagSet c = false) : shutdownWait env fuel c = some c := by
  cases fuel <;> simp [shutdownWait, h]

/-- The waiting loop keeps the shutdown flag set when the other threads do. -/
theorem shutdownWait_keeps_shutdown (env : Cache → Cache)
    (henv : ∀ x, x.shutdown = true → (env x).shutdown = true) :
    ∀ fuel c c1, c.shutdown = true → shutdownWait env fuel c = some c1 → c1.shutdown = true := by
  intro fuel
  induction fuel with
  | zero =>
    intro c c1 hc h
    unfold shutdownWait at h
    split at h
    · cases h; exact hc
    · cases h
  | succ f ih =>
    intro c c1 hc h
    unfold shutdownWait at h
    split at h
    · cases h; exact hc
    · exact ih (env c) c1 (henv c hc) h

/-- On a cache that is shut down `shutdown` does nothing. -/
theorem shutdown_of_shutdown (alloc : Metadata → Nat → Nat) (env : Cache → Cache) (fuel : Nat)
    (c : Cache) (h : c.shutdown = true) : shutdown alloc env fuel c = some (c, []) := by
  unfold shutdown; simp [h]

/-! ### C3 -/

/-- C3: on a cache that is shut down, `shutdown()` changes no field and makes no
call (no `reclaimTable`, no `unregisterCache`); `isResizing()`, `isMigrating()`
and `canResize()` return false; `freeMemory()` returns false; `sizeHint`,
`requestGrow` and `requestMigrate` make no call and change nothing, the two
request times included.  And `shutdown()` is idempotent: the state a first
`shutdown()` ends in is shut down (no thread ever clears the flag), so a second
one changes nothing and calls nothing. -/
theorem shutdown_is_absorbing (alloc : Metadata → Nat → Nat) (env : Cache → Cache)
    (fuel : Nat) (c : Cache) :
    (c.shutdown = true →
      shutdown alloc env fuel c = some (c, []) ∧
      isResizing c = false ∧ isMigrating c = false ∧ canResize c = false ∧
      (∀ freeMemoryWhile, freeMemory freeMemoryWhile c = (c, false)) ∧
      (∀ ratio numElements now1 now2 reply,
        sizeHint ratio c numElements now1 now2 reply = some (c, [])) ∧
      (∀ now1 now2 locked reply, requestGrow c now1 now2 locked reply = (c, [])) ∧
      (∀ requestedLogSize now1 now2 reply,
        requestMigrate c requestedLogSize now1 now2 reply = some (c, []))) ∧
    (∀ r, shutdown alloc env fuel c = some r →
      (∀ x, x.shutdown = true → (env x).shutdown = true) →
      r.1.shutdown = true ∧ shutdown alloc env fuel r.1 = some (r.1, [])) := by
  constructor
  · intro h
    refine ⟨shutdown_of_shutdown alloc env fuel c h, ?_, ?_, ?_, ?_, ?_, ?_, ?_⟩ <;>
      simp [isResizing, isMigrating, canResize, freeMemory, sizeHint, requestGrow,
        requestMigrate, isShutdown, h]
  · intro r hr henv
    have hsd : r.1.shutdown = true := by
      unfold shutdown at hr
      by_cases hc : c.shutdown = true
      · simp only [hc, if_true, Option.some.injEq] at hr
        rw [← hr]; exact hc
      · simp only [hc, Bool.false_eq_true, if_false] at hr
        cases hw : shutdownWait env fuel { c with shutdown := true } with
        | none => rw [hw] at hr; cases hr
        | some c1 =>
          rw [hw] at hr
          have h1 := shutdownWait_keeps_shutdown env henv fuel _ c1 rfl hw
          simp only [Option.some.injEq] at hr
          rw [← hr]
          cases ht : c1.table <;> simp [Cache.setTable, h1]
    exact ⟨hsd, shutdown_of_shutdown alloc env fuel r.1 hsd⟩

/-- C3 at the sample cache after shutdown. -/
theorem shutdown_is_absorbing_witness :
    stoppedCache.shutdown = true ∧
    shutdown sampleAlloc id 0 stoppedCache = some (stoppedCache, []) ∧
    isResizing stoppedCache = false :=
  ⟨rfl, ((shutdown_is_absorbing sampleAlloc id 0 stoppedCache).1 rfl).1,
    ((shutdown_is_absorbing sampleAlloc id 0 stoppedCache).1 rfl).2.1⟩

/-! ### C4 -/

/-- C4: on a cache that is not shut down and has neither `Resizing` nor
`Migrating` set, `shutdown()` terminates (for any fuel, whatever the other
threads do) and afterwards the shutdown flag is set, the table pointer is null
and `unregisterCache` has been called exactly once, with this cache's id.  If
`t` was the current table, then `t` has no auxiliary attached; the calls are,
in order, `clear` and `reclaimTable` for the auxiliary (if one was attached),
`clear` and `reclaimTable` for `t`, and `unregisterCache`; so, `t` and its
auxiliary being different objects, each has been cleared once and handed to
`reclaimTable` once. -/
theorem shutdown_releases_tables (alloc : Metadata → Nat → Nat) (env : Cache → Cache)
    (fuel : Nat) (c : Cache) (hrun : c.shutdown = false)
    (hres : c.metadata.resizing = false) (hmig : c.metadata.migrating = false) :
    ∃ c' calls, shutdown alloc env fuel c = some (c', calls) ∧
      c'.shutdown = true ∧ c'.table = none ∧
      unregisterCalls calls = [c.id] ∧
      ∀ t, c.table = some t →
        (c'.tables t).auxiliary = none ∧
        calls = (match (c.tables t).auxiliary with
                  | none => []
                  | some x => [Call.tableClear x, Call.reclaimTable x false])
                ++ [Call.tableClear t, Call.reclaimTable t false, Call.unregisterCache c.id] ∧
        ((c.tables t).auxiliary ≠ some t →
          clearCount t calls = 1 ∧ reclaimCount t calls = 1 ∧
          ∀ x, (c.tables t).auxiliary = some x →
            clearCount x calls = 1 ∧ reclaimCount x calls = 1) := by
  have hw : shutdownWait env fuel { c with shutdown := true } = some { c with shutdown := true } :=
    shutdownWait_of_flags_clear env fuel _ (by simp [isResizingOrMigratingFlagSet, hres, hmig])
  unfold shutdown
  simp only [hrun, Bool.false_eq_true, if_false, hw]
  cases ht : c.table with
  | none =>
    refine ⟨_, _, rfl, ?_, ?_, ?_, ?_⟩
    · simp [ht]
    · simp [ht]
    · simp [ht, unregisterCalls]
    · intro t h; cases h
  | some t0 =>
    refine ⟨_, _, rfl, ?_, ?_, ?_, ?_⟩
    · simp [ht, Cache.setTable]
    · simp [ht]
    · cases hx : (c.tables t0).auxiliary <;> simp [ht, hx, unregisterCalls, Cache.setTable]
    · intro t h
      cases h
      cases hx : (c.tables t0).auxiliary with
      | none =>
        simp [ht, hx, Cache.setTable, clearCount, reclaimCount]
      | some x =>
        simp only [ht, hx, Cache.setTable, clearCount, reclaimCount]
        refine ⟨by simp, by simp, ?_⟩
        intro hne
        have hne1 : ¬ x = t0 := fun h => hne (by rw [h])
        have hne2 : ¬ t0 = x := fun h => hne1 h.symm
        simp [hne1, hne2]

/-- C4 at the sample cache. -/
theorem shutdown_releases_tables_witness :
    sampleCache.shutdown = false ∧ sampleCache.metadata.resizing = false ∧
    sampleCache.metadata.migrating = false ∧
    ∃ c' calls, shutdown sampleAlloc id 0 sampleCache = some (c', calls) ∧
      c'.shutdown = true ∧ c'.table = none ∧ unregisterCalls calls = [sampleCache.id] :=
  ⟨rfl, rfl, rfl,
    match shutdown_releases_tables sampleAlloc id 0 sampleCache rfl rfl rfl with
    | ⟨c', calls, h1, h2, h3, h4, _⟩ => ⟨c', calls, h1, h2, h3, h4⟩⟩

/-! ### Cooldown -/

/-- `requestGrow` makes no call inside the banned window. -/
theorem requestGrow_in_window (c : Cache) (now1 now2 : Int) (locked : Bool) (reply : Bool × Int)
    (h : now1 ≤ c.resizeRequestTime ∨ now2 ≤ c.resizeRequestTime) :
    requestGrow c now1 now2 locked reply = (c, []) := by
  unfold requestGrow
  rcases h with h | h
  · simp [h]
  · have h2 : ¬ now2 > c.resizeRequestTime := not_lt.2 h
    simp only [h2, if_false]
    split <;> [rfl; (split <;> rfl)]

/-- `requestGrow` either changes nothing and calls nothing, or stores the
Manager's expiry and has called the Manager once. -/
theorem requestGrow_cases (c : Cache) (now1 now2 : Int) (locked : Bool) (reply : Bool × Int) :
    requestGrow c now1 now2 locked reply = (c, []) ∨
    requestGrow c now1 now2 locked reply
      = ({ c with resizeRequestTime := reply.2 }, [Call.managerRequestGrow c.id]) := by
  unfold requestGrow
  split
  · exact Or.inl rfl
  · split
    · split
      · dsimp only
        split
        · exact Or.inr rfl
        · exact Or.inl rfl
      · exact Or.inl rfl
    · exact Or.inl rfl

/-- `requestMigrate` makes no call inside the banned window. -/
theorem requestMigrate_in_window (c : Cache) (k : Nat) (now1 now2 : Int) (reply : Bool × Int)
    (h : now1 ≤ c.migrateRequestTime ∨ now2 ≤ c.migrateRequestTime) :
    requestMigrate c k now1 now2 reply = some (c, []) := by
  unfold requestMigrate
  rcases h with h | h
  · simp [h]
  · have h2 : ¬ now2 > c.migrateRequestTime := not_lt.2 h
    simp only [h2, if_false]
    split <;> rfl

/-- `requestMigrate`, when it returns, either changes nothing and calls nothing,
or stores the Manager's expiry and has called the Manager once. -/
theorem requestMigrate_cases (c : Cache) (k : Nat) (now1 now2 : Int) (reply : Bool × Int) :
    requestMigrate c k now1 now2 reply = none ∨
    requestMigrate c k now1 now2 reply = some (c, []) ∨
    requestMigrate c k now1 now2 reply
      = some ({ c with migrateRequestTime := reply.2 }, [Call.managerRequestMigrate c.id k]) := by
  unfold requestMigrate
  split
  · exact Or.inr (Or.inl rfl)
  · split
    · split
      · exact Or.inl rfl
      · dsimp only
        split
        · exact Or.inr (Or.inr rfl)
        · exact Or.inr (Or.inl rfl)
    · exact Or.inr (Or.inl rfl)

/-- `requestMigrate` returns whenever the cache has a table. -/
theorem requestMigrate_isSome (c : Cache) (k : Nat) (now1 now2 : Int) (reply : Bool × Int)
    (t : Nat) (ht : c.table = some t) : (requestMigrate c k now1 now2 reply).isSome = true := by
  unfold requestMigrate
  simp only [ht]
  split
  · rfl
  · split
    · split <;> rfl
    · rfl

/-! ### C5 -/

/-- C5 (cooldown).  For `requestGrow` with `_resizeRequestTime`, and likewise
for `requestMigrate` with `_migrateRequestTime`: a call whose clock reading
(the first or the second) is at most the stored time makes no Manager call and
changes nothing, the stored time included; a call that does invoke the Manager
invokes it once and stores the expiry `e` it receives; so the next call, made
at a time `t ≤ e`, makes no Manager call, and two successive calls within one
cooldown window make at most one Manager call between them.  `requestMigrate`
returns whenever the cache has a table. -/
theorem cooldown_gates_requests (c : Cache) (requestedLogSize : Nat) (now1 now2 : Int)
    (locked : Bool) (reply : Bool × Int) :
    -- requestGrow
    ((now1 ≤ c.resizeRequestTime ∨ now2 ≤ c.resizeRequestTime) →
      requestGrow c now1 now2 locked reply = (c, [])) ∧
    ((requestGrow c now1 now2 locked reply).2 ≠ [] →
      (requestGrow c now1 now2 locked reply).2 = [Call.managerRequestGrow c.id] ∧
      (requestGrow c now1 now2 locked reply).1.resizeRequestTime = reply.2) ∧
    (∀ t1 t2 locked2 reply2,
      ((requestGrow c now1 now2 locked reply).2 ≠ [] → t1 ≤ reply.2 ∨ t2 ≤ reply.2) →
      ((requestGrow c now1 now2 locked reply).2 ≠ [] →
        requestGrow (requestGrow c now1 now2 locked reply).1 t1 t2 locked2 reply2
          = ((requestGrow c now1 now2 locked reply).1, [])) ∧
      ((requestGrow c now1 now2 locked reply).2 ++
        (requestGrow (requestGrow c now1 now2 locked reply).1 t1 t2 locked2 reply2).2).length
          ≤ 1) ∧
    -- requestMigrate
    ((now1 ≤ c.migrateRequestTime ∨ now2 ≤ c.migrateRequestTime) →
      requestMigrate c requestedLogSize now1 now2 reply = some (c, [])) ∧
    (∀ t, c.table = some t → (requestMigrate c requestedLogSize now1 now2 reply).isSome = true) ∧
    (∀ c1 calls1, requestMigrate c requestedLogSize now1 now2 reply = some (c1, calls1) →
      (calls1 ≠ [] →
        calls1 = [Call.managerRequestMigrate c.id requestedLogSize] ∧
        c1.migrateRequestTime = reply.2) ∧
      ∀ requestedLogSize2 t1 t2 reply2,
        (calls1 ≠ [] → t1 ≤ reply.2 ∨ t2 ≤ reply.2) →
        (calls1 ≠ [] →
          requestMigrate c1 requestedLogSize2 t1 t2 reply2 = some (c1, [])) ∧
        ∀ c2 calls2, requestMigrate c1 requestedLogSize2 t1 t2 reply2 = some (c2, calls2) →
          (calls1 ++ calls2).length ≤ 1) := by
  refine ⟨requestGrow_in_window c now1 now2 locked reply, ?_, ?_,
    requestMigrate_in_window c requestedLogSize now1 now2 reply,
    fun t ht => requestMigrate_isSome c requestedLogSize now1 now2 reply t ht, ?_⟩
  · intro hne
    rcases requestGrow_cases c now1 now2 locked reply with h | h
    · rw [h] at hne; exact absurd rfl hne
    · rw [h]; exact ⟨rfl, rfl⟩
  · intro t1 t2 locked2 reply2 hwin
    rcases requestGrow_cases c now1 now2 locked reply with h | h
    · rw [h]
      refine ⟨fun hne => absurd rfl hne, ?_⟩
      rcases requestGrow_cases c t1 t2 locked2 reply2 with h2 | h2 <;> rw [h2] <;> simp
    · rw [h]
      have hw := hwin (by rw [h]; simp)
      have h2 := requestGrow_in_window { c with resizeRequestTime := reply.2 } t1 t2 locked2
        reply2 hw
      refine ⟨fun _ => h2, ?_⟩
      rw [h2]; simp
  · intro c1 calls1 h1
    rcases requestMigrate_cases c requestedLogSize now1 now2 reply with h | h | h
    · rw [h] at h1; cases h1
    · rw [h] at h1
      cases h1
      refine ⟨fun hne => absurd rfl hne, ?_⟩
      intro k2 t1 t2 reply2 _
      refine ⟨fun hne => absurd rfl hne, ?_⟩
      intro c2 calls2 h2
      rcases requestMigrate_cases c k2 t1 t2 reply2 with h3 | h3 | h3 <;> rw [h3] at h2 <;>
        cases h2 <;> simp
    · rw [h] at h1
      cases h1
      refine ⟨fun _ => ⟨rfl, rfl⟩, ?_⟩
      intro k2 t1 t2 reply2 hwin
      have hw := hwin (by simp)
      have h2 := requestMigrate_in_window { c with migrateRequestTime := reply.2 } k2 t1 t2
        reply2 hw
      refine ⟨fun _ => h2, ?_⟩
      intro c2 calls2 h3
      rw [h2] at h3
      cases h3
      simp

/-- C5 at the sample cache: a request at time 11 past the stored time 10 reaches
the Manager and stores expiry 50; a request at time 9 is dropped. -/
theorem cooldown_gates_requests_witness :
    (requestGrow sampleCache 11 12 true (true, 50)).2 ≠ [] ∧
    (requestGrow sampleCache 11 12 true (true, 50)).2 = [Call.managerRequestGrow sampleCache.id] ∧
    (requestGrow sampleCache 11 12 true (true, 50)).1.resizeRequestTime = 50 ∧
    ((9 : Int) ≤ sampleCache.resizeRequestTime ∨ (9 : Int) ≤ sampleCache.resizeRequestTime) ∧
    requestGrow sampleCache 9 9 true (true, 50) = (sampleCache, []) :=
  have hne : (requestGrow sampleCache 11 12 true (true, 50)).2 ≠ [] := by decide
  ⟨hne, ((cooldown_gates_requests sampleCache 9 11 12 true (true, 50)).2.1 hne).1,
    ((cooldown_gates_requests sampleCache 9 11 12 true (true, 50)).2.1 hne).2,
    Or.inl (by decide),
    (cooldown_gates_requests sampleCache 9 9 9 true (true, 50)).1 (Or.inl (by decide))⟩

/-! ### Migration -/

/-- `adjustUsageIfAllowed` writes the usage count only. -/
theorem adjustUsageIfAllowed_frame (m : Metadata) (d : Int) :
    (m.adjustUsageIfAllowed d).1.migrating = m.migrating ∧
    (m.adjustUsageIfAllowed d).1.resizing = m.resizing ∧
    (m.adjustUsageIfAllowed d).1.allocatedSize = m.allocatedSize ∧
    (m.adjustUsageIfAllowed d).1.softUsageLimit = m.softUsageLimit ∧
    (m.adjustUsageIfAllowed d).1.hardUsageLimit = m.hardUsageLimit := by
  unfold Metadata.adjustUsageIfAllowed
  split
  · simp
  · split <;> simp

/-- `reclaimMemory` writes the usage count only. -/
theorem reclaimMemory_frame (c : Cache) (size : Nat) :
    SameFrame c (reclaimMemory c size).1 ∧ (reclaimMemory c size).1.shutdown = c.shutdown := by
  obtain ⟨h1, h2, h3, h4, h5⟩ := adjustUsageIfAllowed_frame c.metadata (-(toInt64 size))
  exact ⟨⟨rfl, rfl, rfl, h1, h2, h3, h4, h5⟩, rfl⟩

/-- `SameFrame` composes. -/
theorem SameFrame.trans {a b c : Cache} (h1 : SameFrame a b) (h2 : SameFrame b c) :
    SameFrame a c := by
  obtain ⟨a1, a2, a3, a4, a5, a6, a7, a8⟩ := h1
  obtain ⟨b1, b2, b3, b4, b5, b6, b7, b8⟩ := h2
  exact ⟨b1.trans a1, b2.trans a2, b3.trans a3, b4.trans a4, b5.trans a5, b6.trans a6,
    b7.trans a7, b8.trans a8⟩

/-- The bucket loop visits the `remaining` buckets from `i` on in order, leaves
table pointer, tables and flags alone, and ends with the shutdown flag set
exactly when it was set before or became set on the way. -/
theorem migrateLoop_run (evicted : Nat → Nat) (shutdownAt : Option Nat) (t newTable : Nat) :
    ∀ remaining i c,
      (migrateLoop evicted shutdownAt t newTable remaining i c).2
        = (List.range' i remaining).map (fun j => Call.migrateBucket t j newTable) ∧
      SameFrame c (migrateLoop evicted shutdownAt t newTable remaining i c).1 ∧
      ((migrateLoop evicted shutdownAt t newTable remaining i c).1.shutdown = true ↔
        (c.shutdown = true ∨ ∃ j, shutdownAt = some j ∧ i ≤ j ∧ j < i + remaining)) := by
  intro remaining
  induction remaining with
  | zero =>
    intro i c
    refine ⟨rfl, ⟨rfl, rfl, rfl, rfl, rfl, rfl, rfl, rfl⟩, ?_⟩
    simp only [migrateLoop]
    constructor
    · exact fun h => Or.inl h
    · rintro (h | ⟨j, _, h1, h2⟩)
      · exact h
      · omega
  | succ n ih =>
    intro i c
    simp only [migrateLoop]
    obtain ⟨hcalls, hframe, hsd⟩ := ih (i + 1)
      (migrateBucket (if shutdownAt = some i then { c with shutdown := true } else c) (evicted i))
    refine ⟨?_, ?_, ?_⟩
    · rw [hcalls]; simp [List.range'_succ]
    · refine SameFrame.trans ?_ hframe
      unfold migrateBucket
      refine SameFrame.trans ?_ (reclaimMemory_frame _ _).1
      split <;> exact ⟨rfl, rfl, rfl, rfl, rfl, rfl, rfl, rfl⟩
    · rw [hsd]
      unfold migrateBucket
      rw [(reclaimMemory_frame _ _).2]
      by_cases hs : shutdownAt = some i
      · simp only [hs, if_true]
        constructor
        · intro _; exact Or.inr ⟨i, rfl, le_refl i, by omega⟩
        · intro _; exact Or.inl trivial
      · simp only [hs, if_false]
        constructor
        · rintro (h | ⟨j, h0, h1, h2⟩)
          · exact Or.inl h
          · exact Or.inr ⟨j, h0, by omega, by omega⟩
        · rintro (h | ⟨j, h0, h1, h2⟩)
          · exact Or.inl h
          · refine Or.inr ⟨j, h0, ?_, by omega⟩
            rcases Nat.eq_or_lt_of_le h1 with h3 | h3
            · exact absurd (h3 ▸ h0) hs
            · exact h3

/-- `migrate` on a cache that is shut down at entry: only the scope guard
runs. -/
theorem migrate_of_shutdown (alloc : Metadata → Nat → Nat) (evicted : Nat → Nat)
    (shutdownAt : Option Nat) (c : Cache) (newTable : Nat) (h : c.shutdown = true) :
    migrate alloc evicted shutdownAt c newTable
      = some ({ c with metadata := c.metadata.toggleMigrating }, false, []) := by
  unfold migrate; simp [isShutdown, h]

/-- `migrate` on a cache that is not shut down at entry runs to the end: it
visits every primary bucket of the current table `t`, swaps the table pointer,
detaches the auxiliary, updates the Metadata and returns true, whether or not
the shutdown flag becomes set on the way. -/
theorem migrate_of_running (alloc : Metadata → Nat → Nat) (evicted : Nat → Nat)
    (shutdownAt : Option Nat) (c : Cache) (newTable t : Nat) (hrun : c.shutdown = false)
    (ht : c.table = some t) :
    ∃ (c' : Cache) (m : Metadata), migrate alloc evicted shutdownAt c newTable
        = some (c', true,
            (List.range (c.tables t).size).map (fun j => Call.migrateBucket t j newTable)
              ++ [Call.tableClear t, Call.reclaimTable t false]) ∧
      c'.table = some newTable ∧ (c'.tables t).auxiliary = none ∧
      c'.metadata = (m.changeTable alloc (c.tables newTable).memoryUsage).toggleMigrating ∧
      m.migrating = c.metadata.migrating ∧ m.resizing = c.metadata.resizing ∧
      m.allocatedSize = c.metadata.allocatedSize ∧
      m.softUsageLimit = c.metadata.softUsageLimit ∧
      m.hardUsageLimit = c.metadata.hardUsageLimit ∧
      (c'.shutdown = true ↔ ∃ j, shutdownAt = some j ∧ j < (c.tables t).size) := by
  unfold migrate
  simp only [isShutdown, hrun, Bool.false_eq_true, if_false]
  split
  · rename_i h; simp [Cache.setTable, ht] at h
  · rename_i t1 h1
    have ht1 : t1 = t := by simpa [Cache.setTable, ht] using h1.symm
    subst ht1
    generalize hc2 : ((c.setTable newTable
      { c.tables newTable with slotsPerBucket := c.slotsPerBucket, enabled := true }).setTable t1
      { (c.setTable newTable
          { c.tables newTable with slotsPerBucket := c.slotsPerBucket, enabled := true }).tables t1
        with auxiliary := some newTable }) = c2
    have hc2table : c2.table = some t1 := by rw [← hc2]; exact ht
    have hc2sd : c2.shutdown = false := by rw [← hc2]; exact hrun
    have hc2meta : c2.metadata = c.metadata := by rw [← hc2]; rfl
    have hc2size : (c2.tables t1).size = (c.tables t1).size := by
      rw [← hc2]; simp only [Cache.setTable, Table.size]
      by_cases h : t1 = newTable <;> simp [h]
    have hc2mem : ∀ a, (c2.tables a).memoryUsage = (c.tables a).memoryUsage := by
      intro a
      rw [← hc2]; simp only [Cache.setTable]
      split_ifs <;> simp_all
    obtain ⟨hcalls, hframe, hsd⟩ :=
      migrateLoop_run evicted shutdownAt t1 newTable (c2.tables t1).size 0 c2
    obtain ⟨f1, f2, f3, f4, f5, f6, f7, f8⟩ := hframe
    generalize migrateLoop evicted shutdownAt t1 newTable (c2.tables t1).size 0 c2 = L
      at hcalls f1 f2 f3 f4 f5 f6 f7 f8 hsd ⊢
    rw [hc2size, ← List.range_eq_range'] at hcalls
    rw [hc2sd, hc2size] at hsd
    rw [f1, hc2table, hcalls]
    refine ⟨_, L.1.metadata, rfl, rfl, ?_, ?_, ?_, ?_, ?_, ?_, ?_, ?_⟩
    · simp [Cache.setTable]
    · simp only [Cache.setTable]
      by_cases h : newTable = t1
      · simp [h, f2, hc2mem]
      · simp [h, f2, hc2mem]
    · rw [f4, hc2meta]
    · rw [f5, hc2meta]
    · rw [f6, hc2meta]
    · rw [f7, hc2meta]
    · rw [f8, hc2meta]
    · show L.1.shutdown = true ↔ _
      rw [hsd]
      simp

/-- The state `migrate` ends in has `Migrating` clear when the metadata it
updates had it set. -/
theorem toggle_changeTable_flags (alloc : Metadata → Nat → Nat) (m : Metadata) (n : Nat) :
    ((m.changeTable alloc n).toggleMigrating).migrating = !m.migrating ∧
    ((m.changeTable alloc n).toggleMigrating).resizing = m.resizing :=
  ⟨rfl, rfl⟩

/-! ### C6 -/

/-- C6: started with the `Migrating` flag set, `migrate(newTable)` ends with
`Migrating` clear and `Resizing` as it was on both exit paths (one toggle on
each: the scope guard's on the early return, the explicit one, with the guard
cancelled, otherwise).  If the cache is shut down at entry it returns false,
the table pointer and every table are as before (`newTable` has not been
attached as auxiliary) and nothing but the flag has changed.  Otherwise, `t`
being the current table, it returns true, the table pointer is `newTable`, `t`
has no auxiliary attached, and the Metadata is the result of
`changeTable(newTable.memoryUsage())` followed by the toggle, applied to
metadata `m` that agrees with the metadata at entry in flags, allocated size
and limits. -/
theorem migrate_clears_migrating (alloc : Metadata → Nat → Nat) (evicted : Nat → Nat)
    (shutdownAt : Option Nat) (c : Cache) (newTable : Nat)
    (hmig : c.metadata.migrating = true) :
    (c.shutdown = true →
      ∃ c', migrate alloc evicted shutdownAt c newTable = some (c', false, []) ∧
        c'.metadata.migrating = false ∧ c'.metadata.resizing = c.metadata.resizing ∧
        c'.table = c.table ∧ c'.tables = c.tables ∧
        c' = { c with metadata := { c.metadata with migrating := false } }) ∧
    (c.shutdown = false → ∀ t, c.table = some t →
      ∃ c' calls, migrate alloc evicted shutdownAt c newTable = some (c', true, calls) ∧
        c'.metadata.migrating = false ∧ c'.metadata.resizing = c.metadata.resizing ∧
        c'.table = some newTable ∧ (c'.tables t).auxiliary = none ∧
        ∃ m : Metadata,
          c'.metadata = (m.changeTable alloc (c.tables newTable).memoryUsage).toggleMigrating ∧
          m.migrating = true ∧ m.resizing = c.metadata.resizing ∧
          m.allocatedSize = c.metadata.allocatedSize ∧
          m.softUsageLimit = c.metadata.softUsageLimit ∧
          m.hardUsageLimit = c.metadata.hardUsageLimit) := by
  constructor
  · intro hsd
    refine ⟨_, migrate_of_shutdown alloc evicted shutdownAt c newTable hsd, ?_, rfl, rfl, rfl, ?_⟩
    · simp [Metadata.toggleMigrating, hmig]
    · simp [Metadata.toggleMigrating, hmig]
  · intro hrun t ht
    obtain ⟨c', m, h1, h2, h3, h4, h5, h6, h7, h8, h9, _⟩ :=
      migrate_of_running alloc evicted shutdownAt c newTable t hrun ht
    refine ⟨c', _, h1, ?_, ?_, h2, h3, m, h4, h5.trans hmig, h6, h7, h8, h9⟩
    · rw [h4, (toggle_changeTable_flags alloc m _).1, h5, hmig]; rfl
    · rw [h4, (toggle_changeTable_flags alloc m _).2, h6]

/-- C6 at the sample cache with `Migrating` set, migrating from table 1 to
table 2. -/
theorem migrate_clears_migrating_witness :
    migratingCache.metadata.migrating = true ∧ migratingCache.shutdown = false ∧
    migratingCache.table = some 1 ∧
    ∃ c' calls, migrate sampleAlloc (fun _ => 0) none migratingCache 2 = some (c', true, calls) ∧
      c'.metadata.migrating = false ∧
      c'.metadata.resizing = migratingCache.metadata.resizing ∧
      c'.table = some 2 ∧ (c'.tables 1).auxiliary = none :=
  ⟨rfl, rfl, rfl,
    match (migrate_clears_migrating sampleAlloc (fun _ => 0) none migratingCache 2 rfl).2 rfl 1
        rfl with
    | ⟨c', calls, h1, h2, h3, h4, h5, _⟩ => ⟨c', calls, h1, h2, h3, h4, h5⟩⟩

/-! ### Shutdown during a migration -/

/-- While `Resizing` or `Migrating` stays set (the other threads leave the
cache as it is), the waiting loop of `shutdown` does not end, whatever the
fuel: `shutdown()` sets the flag and waits, it does not proceed to release the
table. -/
theorem shutdown_waits_while_flag_set (alloc : Metadata → Nat → Nat) (fuel : Nat) (c : Cache)
    (hrun : c.shutdown = false) (hflag : isResizingOrMigratingFlagSet c = true) :
    shutdown alloc id fuel c = none := by
  have hwait : ∀ f (x : Cache), isResizingOrMigratingFlagSet x = true →
      shutdownWait id f x = none := by
    intro f
    induction f with
    | zero => intro x hx; simp [shutdownWait, hx]
    | succ n ih => intro x hx; simp only [shutdownWait, hx, Bool.not_true, id]; exact ih x hx
  unfold shutdown
  simp only [hrun, Bool.false_eq_true, if_false]
  rw [hwait fuel { c with shutdown := true } hflag]

/-! ### C7 -/

/-- C7, refuted as stated.  The sample cache is not shut down when `migrate`
starts on its table of 256 buckets; the shutdown flag becomes set just before
bucket 3 is visited, with 253 buckets still to migrate.  `migrate` does not
read the flag again: it visits all 256 buckets, swaps the table pointer to the
new table 2 and returns true. -/
theorem migrate_late_shutdown_counterexample :
    migratingCache.shutdown = false ∧ (migratingCache.tables 1).size = 256 ∧
    ∃ c' calls, migrate sampleAlloc (fun _ => 0) (some 3) migratingCache 2
        = some (c', true, calls) ∧
      c'.shutdown = true ∧ c'.table = some 2 ∧
      calls = (List.range 256).map (fun j => Call.migrateBucket 1 j 2)
                ++ [Call.tableClear 1, Call.reclaimTable 1 false] := by
  have hsize : (migratingCache.tables 1).size = 256 := by
    simp [migratingCache, sampleCache, sampleTable, Table.size]
  obtain ⟨c', m, h1, h2, _, _, _, _, _, _, _, h10⟩ :=
    migrate_of_running sampleAlloc (fun _ => 0) (some 3) migratingCache 2 1 rfl rfl
  rw [hsize] at h1 h10
  exact ⟨rfl, hsize, c', _, h1, h10.2 ⟨3, rfl, by norm_num⟩, h2, rfl⟩

/-- C7 (amended): `migrate` reads `isShutdown()` once, at entry, and not
between bucket visits.  In every run of `migrate(newTable)`, started with
`Migrating` set on a cache that is not shut down, in which the shutdown flag
becomes set before primary bucket `i` of the current table `t` is visited,
`migrate` still visits every primary bucket in order, swaps the table pointer
to `newTable`, clears `Migrating`, hands `t` back and returns true. -/
theorem migrate_checks_shutdown_only_at_entry (alloc : Metadata → Nat → Nat)
    (evicted : Nat → Nat) (c : Cache) (newTable t i : Nat)
    (hmig : c.metadata.migrating = true) (hrun : c.shutdown = false) (ht : c.table = some t)
    (hi : i < (c.tables t).size) :
    ∃ c', migrate alloc evicted (some i) c newTable
        = some (c', true,
            (List.range (c.tables t).size).map (fun j => Call.migrateBucket t j newTable)
              ++ [Call.tableClear t, Call.reclaimTable t false]) ∧
      c'.shutdown = true ∧ c'.table = some newTable ∧ c'.metadata.migrating = false := by
  obtain ⟨c', m, h1, h2, _, h4, h5, _, _, _, _, h10⟩ :=
    migrate_of_running alloc evicted (some i) c newTable t hrun ht
  refine ⟨c', h1, h10.2 ⟨i, rfl, hi⟩, h2, ?_⟩
  rw [h4, (toggle_changeTable_flags alloc m _).1, h5, hmig]; rfl

/-- C7 (amended) at the sample cache, the flag becoming set before the last
bucket, 255. -/
theorem migrate_checks_shutdown_only_at_entry_witness :
    migratingCache.metadata.migrating = true ∧ migratingCache.shutdown = false ∧
    migratingCache.table = some 1 ∧ 255 < (migratingCache.tables 1).size ∧
    ∃ c', migrate sampleAlloc (fun _ => 0) (some 255) migratingCache 2
        = some (c', true,
            (List.range (migratingCache.tables 1).size).map (fun j => Call.migrateBucket 1 j 2)
              ++ [Call.tableClear 1, Call.reclaimTable 1 false]) ∧
      c'.shutdown = true ∧ c'.table = some 2 ∧ c'.metadata.migrating = false :=
  have hsize : 255 < (migratingCache.tables 1).size := by
    simp [migratingCache, sampleCache, sampleTable, Table.size]
  ⟨rfl, rfl, rfl, hsize,
    migrate_checks_shutdown_only_at_entry sampleAlloc (fun _ => 0) migratingCache 2 1 255 rfl rfl
      rfl hsize⟩

/-! ### Double arithmetic -/

/-- With enough fuel the halving loop computes the binary logarithm. -/
theorem floorLog2Aux_eq_log : ∀ fuel n, n ≤ fuel → floorLog2Aux fuel n = Nat.log 2 n := by
  intro fuel
  induction fuel with
  | zero =>
    intro n hn
    have : n = 0 := by omega
    subst this
    simp [floorLog2Aux]
  | succ f ih =>
    intro n hn
    unfold floorLog2Aux
    by_cases h2 : n < 2
    · rw [if_pos h2, Nat.log_of_lt h2]
    · rw [if_neg h2, ih (n / 2) (by omega)]
      exact (Nat.log_of_one_lt_of_le (by norm_num) (by omega)).symm

/-- `floorLog2` is the binary logarithm rounded down. -/
theorem floorLog2_eq_log (n : Nat) : floorLog2 n = Nat.log 2 n :=
  floorLog2Aux_eq_log n n (le_refl n)

/-- A positive number is at least the power of two of its logarithm. -/
theorem pow_floorLog2_le (n : Nat) (hn : 0 < n) : 2 ^ floorLog2 n ≤ n := by
  rw [floorLog2_eq_log]; exact Nat.pow_log_le_self 2 (by omega)

/-- A number is below the next power of two after its logarithm. -/
theorem lt_pow_floorLog2_succ (n : Nat) : n < 2 ^ (floorLog2 n + 1) := by
  rw [floorLog2_eq_log]; exact Nat.lt_pow_succ_log_self (by norm_num) n

/-- `floorLog2` is monotone. -/
theorem floorLog2_mono {n m : Nat} (h : n ≤ m) : floorLog2 n ≤ floorLog2 m := by
  rw [floorLog2_eq_log, floorLog2_eq_log]; exact Nat.log_mono_right h

/-- Rounding a ratio that is at most the integer `K` gives at most `K`. -/
theorem roundHalfEven_le (n d K : Nat) (hd : 0 < d) (h : n ≤ K * d) :
    roundHalfEven n d ≤ K := by
  have hq : n / d ≤ K := by
    calc n / d ≤ K * d / d := Nat.div_le_div_right h
      _ = K := Nat.mul_div_cancel K hd
  unfold roundHalfEven
  rcases Nat.lt_or_ge (n / d) K with hlt | hge
  · simp only
    split_ifs <;> omega
  · have hqK : n / d = K := le_antisymm hq hge
    have hr : n % d = 0 := by
      have := Nat.div_add_mod n d
      rw [hqK] at this
      have h3 : d * K = K * d := Nat.mul_comm d K
      omega
    simp only [hr, hqK]
    rw [if_pos (by omega)]

/-- Rounding a ratio that is at least the integer `K` gives at least `K`. -/
theorem le_roundHalfEven (n d K : Nat) (hd : 0 < d) (h : K * d ≤ n) :
    K ≤ roundHalfEven n d := by
  have hq : K ≤ n / d := (Nat.le_div_iff_mul_le hd).2 h
  unfold roundHalfEven
  simp only
  split_ifs <;> omega

/-- Rounding is monotone in the numerator. -/
theorem roundHalfEven_mono (n1 n2 d : Nat) (h : n1 ≤ n2) :
    roundHalfEven n1 d ≤ roundHalfEven n2 d := by
  have hq : n1 / d ≤ n2 / d := Nat.div_le_div_right h
  rcases Nat.lt_or_ge (n1 / d) (n2 / d) with hlt | hge
  · have h1 : roundHalfEven n1 d ≤ n1 / d + 1 := by
      unfold roundHalfEven; simp only; split_ifs <;> omega
    have h2 : n2 / d ≤ roundHalfEven n2 d := by
      unfold roundHalfEven; simp only; split_ifs <;> omega
    omega
  · have hqq : n1 / d = n2 / d := le_antisymm hq hge
    have hr : n1 % d ≤ n2 % d := by
      have e1 := Nat.div_add_mod n1 d
      have e2 := Nat.div_add_mod n2 d
      rw [hqq] at e1
      omega
    unfold roundHalfEven
    simp only [hqq]
    split_ifs <;> omega


/-- Comparison of a scaled mantissa with a natural number, cleared of the
power of two. -/
theorem scaled_le_iff (M Y : Nat) (E : Int) :
    (M : ℚ) * (2 : ℚ) ^ E ≤ (Y : ℚ) ↔ M * 2 ^ E.toNat ≤ Y * 2 ^ (-E).toNat := by
  rcases le_or_lt 0 E with h | h
  · obtain ⟨k, rfl⟩ := Int.eq_ofNat_of_zero_le h
    have h1 : (-(k : Int)).toNat = 0 := by simp
    simp only [Int.toNat_ofNat, h1, pow_zero, mul_one, zpow_natCast]
    rw [← Nat.cast_le (α := ℚ)]
    push_cast
    rfl
  · obtain ⟨k, hk⟩ := Int.exists_eq_neg_ofNat (le_of_lt h)
    subst hk
    have h1 : (-(k : Int)).toNat = 0 := by simp
    have h2 : (- -(k : Int)).toNat = k := by simp
    simp only [h1, h2, pow_zero, mul_one, zpow_neg, zpow_natCast]
    rw [← Nat.cast_le (α := ℚ)]
    push_cast
    have hpos : (0 : ℚ) < 2 ^ k := by positivity
    rw [← div_eq_mul_inv, div_le_iff₀ hpos]

/-- The converse comparison, cleared of the power of two. -/
theorem le_scaled_iff (M Y : Nat) (E : Int) :
    (Y : ℚ) ≤ (M : ℚ) * (2 : ℚ) ^ E ↔ Y * 2 ^ (-E).toNat ≤ M * 2 ^ E.toNat := by
  rcases le_or_lt 0 E with h | h
  · obtain ⟨k, rfl⟩ := Int.eq_ofNat_of_zero_le h
    have h1 : (-(k : Int)).toNat = 0 := by simp
    simp only [Int.toNat_ofNat, h1, pow_zero, mul_one, zpow_natCast]
    rw [← Nat.cast_le (α := ℚ)]
    push_cast
    rfl
  · obtain ⟨k, hk⟩ := Int.exists_eq_neg_ofNat (le_of_lt h)
    subst hk
    have h1 : (-(k : Int)).toNat = 0 := by simp
    have h2 : (- -(k : Int)).toNat = k := by simp
    simp only [h1, h2, pow_zero, mul_one, zpow_neg, zpow_natCast]
    rw [← Nat.cast_le (α := ℚ)]
    push_cast
    have hpos : (0 : ℚ) < 2 ^ k := by positivity
    rw [← div_eq_mul_inv, le_div_iff₀ hpos]

/-- `Double.round` on a positive numerator, unfolded. -/
theorem Double.round_of_pos (a b : Nat) (ha : 0 < a) :
    Double.round a b =
      if (if roundHalfEven (a * 2 ^ (-(max (floorLog2Ratio a b - 52) (-1074))).toNat)
              (b * 2 ^ (max (floorLog2Ratio a b - 52) (-1074)).toNat) = 2 ^ 53
          then max (floorLog2Ratio a b - 52) (-1074) + 1
          else max (floorLog2Ratio a b - 52) (-1074)) > 971
      then Double.inf
      else Double.finite
        (if roundHalfEven (a * 2 ^ (-(max (floorLog2Ratio a b - 52) (-1074))).toNat)
              (b * 2 ^ (max (floorLog2Ratio a b - 52) (-1074)).toNat) = 2 ^ 53
          then 2 ^ 52
          else roundHalfEven (a * 2 ^ (-(max (floorLog2Ratio a b - 52) (-1074))).toNat)
              (b * 2 ^ (max (floorLog2Ratio a b - 52) (-1074)).toNat))
        (if roundHalfEven (a * 2 ^ (-(max (floorLog2Ratio a b - 52) (-1074))).toNat)
              (b * 2 ^ (max (floorLog2Ratio a b - 52) (-1074)).toNat) = 2 ^ 53
          then max (floorLog2Ratio a b - 52) (-1074) + 1
          else max (floorLog2Ratio a b - 52) (-1074)) := by
  unfold Double.round
  rw [if_neg (by omega)]

/-- The carry step keeps the value: when the quantum exponent `e` leaves room,
`Double.round` is finite with value `m * 2 ^ e`, `m` the rounded mantissa. -/
theorem Double.round_value (a b : Nat) (ha : 0 < a) (e : Int) (m : Nat)
    (he : e = max (floorLog2Ratio a b - 52) (-1074))
    (hm : m = roundHalfEven (a * 2 ^ (-e).toNat) (b * 2 ^ e.toNat)) (hroom : e + 1 ≤ 971) :
    ∃ m' e', Double.round a b = Double.finite m' e' ∧
      (m' : ℚ) * (2 : ℚ) ^ e' = (m : ℚ) * (2 : ℚ) ^ e ∧ (m' = 0 ↔ m = 0) := by
  rw [Double.round_of_pos a b ha, ← he, ← hm]
  by_cases hc : m = 2 ^ 53
  · simp only [hc, if_true]
    rw [if_neg (by omega)]
    refine ⟨_, _, rfl, ?_, by norm_num⟩
    rw [zpow_add₀ (by norm_num : (2 : ℚ) ≠ 0)]
    push_cast
    ring
  · simp only [hc, if_false]
    rw [if_neg (by omega)]
    exact ⟨_, _, rfl, rfl, Iff.rfl⟩

/-- A ratio below `2 ^ 53` has binary logarithm at most 52. -/
theorem floorLog2Ratio_le (a b Y : Nat) (ha : 0 < a) (hb : 0 < b) (hY : Y < 2 ^ 53)
    (h : a ≤ Y * b) : floorLog2Ratio a b ≤ 52 := by
  have hab : a < 2 ^ 53 * b := lt_of_le_of_lt h (Nat.mul_lt_mul_of_pos_right hY hb)
  have hla := pow_floorLog2_le a ha
  have hlb := lt_pow_floorLog2_succ b
  unfold floorLog2Ratio
  simp only
  by_contra hcon
  split_ifs at hcon with hc
  · -- the candidate itself
    have hl : (53 : Int) ≤ (floorLog2 a : Int) - (floorLog2 b : Int) := by omega
    have h1 : (-((floorLog2 a : Int) - (floorLog2 b : Int))).toNat = 0 := by
      apply Int.toNat_eq_zero.2; omega
    have h2 : 53 ≤ ((floorLog2 a : Int) - (floorLog2 b : Int)).toNat := by omega
    rw [h1, pow_zero, mul_one] at hc
    have h3 : b * 2 ^ 53 ≤ b * 2 ^ ((floorLog2 a : Int) - (floorLog2 b : Int)).toNat :=
      Nat.mul_le_mul_left b (Nat.pow_le_pow_right (by norm_num) h2)
    have h4 : b * 2 ^ 53 = 2 ^ 53 * b := Nat.mul_comm _ _
    omega
  · have hl : floorLog2 b + 54 ≤ floorLog2 a := by omega
    have h3 : 2 ^ (floorLog2 b + 1 + 53) ≤ 2 ^ floorLog2 a :=
      Nat.pow_le_pow_right (by norm_num) (by omega)
    have h4 : 2 ^ (floorLog2 b + 1 + 53) = 2 ^ (floorLog2 b + 1) * 2 ^ 53 := pow_add 2 _ 53
    have h5 : b * 2 ^ 53 < 2 ^ (floorLog2 b + 1) * 2 ^ 53 :=
      Nat.mul_lt_mul_of_pos_right hlb (by positivity)
    have h6 : b * 2 ^ 53 = 2 ^ 53 * b := Nat.mul_comm _ _
    omega

/-- A ratio that is at most a natural number `Y < 2 ^ 53` rounds to a finite
double that is at most `Y`. -/
theorem Double.round_le_nat (a b Y : Nat) (hb : 0 < b) (hY : Y < 2 ^ 53) (h : a ≤ Y * b) :
    ∃ m e, Double.round a b = Double.finite m e ∧ (m : ℚ) * (2 : ℚ) ^ e ≤ (Y : ℚ) := by
  rcases Nat.eq_zero_or_pos a with h0 | ha
  · subst h0
    refine ⟨0, -1074, by simp [Double.round], ?_⟩
    simp
  · have hfl := floorLog2Ratio_le a b Y ha hb hY h
    have he0 : max (floorLog2Ratio a b - 52) (-1074) ≤ 0 := by omega
    obtain ⟨m', e', hr, hv, _⟩ := Double.round_value a b ha _ _ rfl rfl (by omega)
    refine ⟨m', e', hr, ?_⟩
    rw [hv, scaled_le_iff]
    have ht : (max (floorLog2Ratio a b - 52) (-1074)).toNat = 0 := Int.toNat_eq_zero.2 he0
    rw [ht, pow_zero, mul_one, mul_one]
    apply roundHalfEven_le _ _ _ hb
    calc a * 2 ^ (-max (floorLog2Ratio a b - 52) (-1074)).toNat
        ≤ Y * b * 2 ^ (-max (floorLog2Ratio a b - 52) (-1074)).toNat :=
          Nat.mul_le_mul_right _ h
      _ = Y * 2 ^ (-max (floorLog2Ratio a b - 52) (-1074)).toNat * b := by ring

/-- The logarithm of one. -/
theorem floorLog2_one : floorLog2 1 = 0 := by decide

/-- Against denominator 1 the logarithm of the ratio is that of the
numerator. -/
theorem floorLog2Ratio_one (n : Nat) (hn : 0 < n) : floorLog2Ratio n 1 = (floorLog2 n : Int) := by
  unfold floorLog2Ratio
  simp only [floorLog2_one, Nat.cast_zero, sub_zero, Int.toNat_ofNat, one_mul]
  have h1 : (-(floorLog2 n : Int)).toNat = 0 := by simp
  rw [h1, pow_zero, mul_one, if_pos (pow_floorLog2_le n hn)]

/-- The conversion of a positive 64-bit number: the mantissa is the number,
scaled to 53 bits and rounded half-even, and the value lies between the two
powers of two that enclose the number. -/
theorem Double.ofNat_spec (n : Nat) (hn : 0 < n) (h64 : n < 2 ^ 64) :
    ∃ m e, Double.ofNat n = Double.finite m e ∧ m ≠ 0 ∧
      (m : ℚ) * (2 : ℚ) ^ e
        = (roundHalfEven (n * 2 ^ (52 - floorLog2 n)) (2 ^ (floorLog2 n - 52)) : ℚ)
            * (2 : ℚ) ^ ((floorLog2 n : Int) - 52) ∧
      2 ^ 52 ≤ roundHalfEven (n * 2 ^ (52 - floorLog2 n)) (2 ^ (floorLog2 n - 52)) ∧
      roundHalfEven (n * 2 ^ (52 - floorLog2 n)) (2 ^ (floorLog2 n - 52)) ≤ 2 ^ 53 := by
  have hL : floorLog2 n < 64 := by
    by_contra hcon
    have h1 : 2 ^ 64 ≤ 2 ^ floorLog2 n := Nat.pow_le_pow_right (by norm_num) (by omega)
    have h2 := pow_floorLog2_le n hn
    omega
  have hlo := pow_floorLog2_le n hn
  have hhi := lt_pow_floorLog2_succ n
  have he : ((floorLog2 n : Int) - 52) = max (floorLog2Ratio n 1 - 52) (-1074) := by
    rw [floorLog2Ratio_one n hn]; omega
  have ht1 : (-((floorLog2 n : Int) - 52)).toNat = 52 - floorLog2 n := by omega
  have ht2 : ((floorLog2 n : Int) - 52).toNat = floorLog2 n - 52 := by omega
  have hm : roundHalfEven (n * 2 ^ (52 - floorLog2 n)) (2 ^ (floorLog2 n - 52))
      = roundHalfEven (n * 2 ^ (-((floorLog2 n : Int) - 52)).toNat)
          (1 * 2 ^ ((floorLog2 n : Int) - 52).toNat) := by
    rw [ht1, ht2, one_mul]
  have hdpos : 0 < 2 ^ (floorLog2 n - 52) := by positivity
  -- the scaled number lies between 2^52 and 2^53 times the denominator
  have hscale : 2 ^ 52 * 2 ^ (floorLog2 n - 52) ≤ n * 2 ^ (52 - floorLog2 n) ∧
      n * 2 ^ (52 - floorLog2 n) ≤ 2 ^ 53 * 2 ^ (floorLog2 n - 52) := by
    rcases Nat.le_total (floorLog2 n) 52 with h | h
    · have e1 : floorLog2 n - 52 = 0 := by omega
      rw [e1, pow_zero, mul_one, mul_one]
      have e2 : 2 ^ 52 = 2 ^ floorLog2 n * 2 ^ (52 - floorLog2 n) := by
        rw [← pow_add]; congr 1; omega
      have e3 : 2 ^ 53 = 2 ^ (floorLog2 n + 1) * 2 ^ (52 - floorLog2 n) := by
        rw [← pow_add]; congr 1; omega
      rw [e2, e3]
      exact ⟨Nat.mul_le_mul_right _ hlo, Nat.mul_le_mul_right _ (le_of_lt hhi)⟩
    · have e1 : 52 - floorLog2 n = 0 := by omega
      rw [e1, pow_zero, mul_one]
      have e2 : 2 ^ 52 * 2 ^ (floorLog2 n - 52) = 2 ^ floorLog2 n := by
        rw [← pow_add]; congr 1; omega
      have e3 : 2 ^ 53 * 2 ^ (floorLog2 n - 52) = 2 ^ (floorLog2 n + 1) := by
        rw [← pow_add]; congr 1; omega
      rw [e2, e3]
      exact ⟨hlo, le_of_lt hhi⟩
  have hge := le_roundHalfEven _ _ _ hdpos hscale.1
  have hle := roundHalfEven_le _ _ _ hdpos hscale.2
  obtain ⟨m', e', hr, hv, hz⟩ := Double.round_value n 1 hn _ _ he hm (by omega)
  refine ⟨m', e', hr, ?_, hv, hge, hle⟩
  intro h0
  have := hz.1 h0
  have hpos : 0 < 2 ^ 52 := by positivity
  omega

/-- Conversion to double is monotone on 64-bit numbers. -/
theorem Double.ofNat_mono (h s : Nat) (hh : 0 < h) (hs : h ≤ s) (h64 : s < 2 ^ 64) :
    ∃ m1 e1 m2 e2, Double.ofNat h = Double.finite m1 e1 ∧ Double.ofNat s = Double.finite m2 e2 ∧
      m2 ≠ 0 ∧ (m1 : ℚ) * (2 : ℚ) ^ e1 ≤ (m2 : ℚ) * (2 : ℚ) ^ e2 := by
  obtain ⟨m1, e1, hr1, _, hv1, hge1, hle1⟩ := Double.ofNat_spec h hh (by omega)
  obtain ⟨m2, e2, hr2, hnz2, hv2, hge2, hle2⟩ := Double.ofNat_spec s (by omega) h64
  refine ⟨m1, e1, m2, e2, hr1, hr2, hnz2, ?_⟩
  rw [hv1, hv2]
  have hmono := floorLog2_mono hs
  rcases Nat.lt_or_ge (floorLog2 h) (floorLog2 s) with hlt | hge
  · -- a power of two lies between the two values
    have two_pos : (0 : ℚ) < 2 := by norm_num
    have hA : (roundHalfEven (h * 2 ^ (52 - floorLog2 h)) (2 ^ (floorLog2 h - 52)) : ℚ)
        * (2 : ℚ) ^ ((floorLog2 h : Int) - 52) ≤ (2 : ℚ) ^ ((floorLog2 h : Int) + 1) := by
      have : ((floorLog2 h : Int) + 1) = 53 + ((floorLog2 h : Int) - 52) := by ring
      rw [this, zpow_add₀ two_pos.ne']
      apply mul_le_mul_of_nonneg_right _ (by positivity)
      exact_mod_cast hle1
    have hB : (2 : ℚ) ^ (floorLog2 s : Int)
        ≤ (roundHalfEven (s * 2 ^ (52 - floorLog2 s)) (2 ^ (floorLog2 s - 52)) : ℚ)
          * (2 : ℚ) ^ ((floorLog2 s : Int) - 52) := by
      have : ((floorLog2 s : Int)) = 52 + ((floorLog2 s : Int) - 52) := by ring
      rw [this, zpow_add₀ two_pos.ne']
      have : (52 : Int) + ((floorLog2 s : Int) - 52) - 52 = (floorLog2 s : Int) - 52 := by ring
      rw [this]
      apply mul_le_mul_of_nonneg_right _ (by positivity)
      exact_mod_cast hge2
    have hC : (2 : ℚ) ^ ((floorLog2 h : Int) + 1) ≤ (2 : ℚ) ^ (floorLog2 s : Int) :=
      zpow_le_zpow_right₀ (by norm_num) (by omega)
    exact le_trans hA (le_trans hC hB)
  · have heq : floorLog2 h = floorLog2 s := le_antisymm hmono hge
    rw [heq]
    apply mul_le_mul_of_nonneg_right _ (by positivity)
    have := roundHalfEven_mono (h * 2 ^ (52 - floorLog2 s)) (s * 2 ^ (52 - floorLog2 s))
      (2 ^ (floorLog2 s - 52)) (Nat.mul_le_mul_right _ hs)
    exact_mod_cast this

/-- Numbers below `2 ^ 53` convert exactly. -/
theorem Double.ofNat_exact (n : Nat) (h53 : n < 2 ^ 53) :
    ∃ m e, Double.ofNat n = Double.finite m e ∧ (m : ℚ) * (2 : ℚ) ^ e = (n : ℚ) := by
  rcases Nat.eq_zero_or_pos n with h0 | hn
  · subst h0
    exact ⟨0, -1074, by decide, by simp⟩
  · obtain ⟨m, e, hr, _, hv, _, _⟩ := Double.ofNat_spec n hn (lt_trans h53 (by norm_num))
    refine ⟨m, e, hr, ?_⟩
    rw [hv]
    have hL : floorLog2 n ≤ 52 := by
      by_contra hcon
      have h1 : 2 ^ 53 ≤ 2 ^ floorLog2 n := Nat.pow_le_pow_right (by norm_num) (by omega)
      have h2 := pow_floorLog2_le n hn
      omega
    have e1 : floorLog2 n - 52 = 0 := by omega
    have hrne : roundHalfEven (n * 2 ^ (52 - floorLog2 n)) (2 ^ (floorLog2 n - 52))
        = n * 2 ^ (52 - floorLog2 n) := by
      rw [e1, pow_zero]
      unfold roundHalfEven
      simp only [Nat.mod_one, Nat.div_one, Nat.mul_zero]
      rw [if_pos (by norm_num)]
    rw [hrne]
    have e2 : ((floorLog2 n : Int) - 52) = -((52 - floorLog2 n : Nat) : Int) := by omega
    rw [e2, zpow_neg, zpow_natCast]
    push_cast
    have hpos : (0 : ℚ) < 2 ^ (52 - floorLog2 n) := by positivity
    field_simp

/-- A quotient of finite doubles whose numerator is at most the (non-zero)
denominator is a finite double that is at most 1. -/
theorem Double.div_le_one (m1 m2 : Nat) (e1 e2 : Int) (hnz : m2 ≠ 0)
    (h : (m1 : ℚ) * (2 : ℚ) ^ e1 ≤ (m2 : ℚ) * (2 : ℚ) ^ e2) :
    ∃ m e, Double.div (Double.finite m1 e1) (Double.finite m2 e2) = Double.finite m e ∧
      (m : ℚ) * (2 : ℚ) ^ e ≤ 1 := by
  have two_pos : (0 : ℚ) < 2 := by norm_num
  have hcross : m1 * 2 ^ (e1 - e2).toNat ≤ 1 * (m2 * 2 ^ (e2 - e1).toNat) := by
    rw [one_mul]
    have h1 : (m1 : ℚ) * (2 : ℚ) ^ (e1 - e2) ≤ (m2 : ℚ) := by
      have hp : (0 : ℚ) < (2 : ℚ) ^ e2 := zpow_pos two_pos e2
      rw [zpow_sub₀ two_pos.ne', ← mul_div_assoc, div_le_iff₀ hp]
      exact h
    have h2 := (scaled_le_iff m1 m2 (e1 - e2)).1 h1
    have h3 : -(e1 - e2) = e2 - e1 := by ring
    rwa [h3] at h2
  have hbpos : 0 < m2 * 2 ^ (e2 - e1).toNat :=
    Nat.mul_pos (Nat.pos_of_ne_zero hnz) (by positivity)
  obtain ⟨m, e, hr, hv⟩ := Double.round_le_nat _ _ 1 hbpos (by norm_num) hcross
  refine ⟨m, e, ?_, by simpa using hv⟩
  simp only [Double.div, if_neg hnz]
  exact hr

/-- A product of finite doubles whose exact value is at most the natural number
`Y < 2 ^ 53` is a finite double that is at most `Y`. -/
theorem Double.mul_le_nat (m1 m2 Y : Nat) (e1 e2 : Int) (hY : Y < 2 ^ 53)
    (h : ((m1 : ℚ) * (2 : ℚ) ^ e1) * ((m2 : ℚ) * (2 : ℚ) ^ e2) ≤ (Y : ℚ)) :
    ∃ m e, Double.mul (Double.finite m1 e1) (Double.finite m2 e2) = Double.finite m e ∧
      (m : ℚ) * (2 : ℚ) ^ e ≤ (Y : ℚ) := by
  have two_pos : (0 : ℚ) < 2 := by norm_num
  have h1 : ((m1 * m2 : Nat) : ℚ) * (2 : ℚ) ^ (e1 + e2) ≤ (Y : ℚ) := by
    rw [zpow_add₀ two_pos.ne']
    push_cast
    calc (m1 : ℚ) * (m2 : ℚ) * ((2 : ℚ) ^ e1 * (2 : ℚ) ^ e2)
        = ((m1 : ℚ) * (2 : ℚ) ^ e1) * ((m2 : ℚ) * (2 : ℚ) ^ e2) := by ring
      _ ≤ (Y : ℚ) := h
  have h2 := (scaled_le_iff (m1 * m2) Y (e1 + e2)).1 h1
  obtain ⟨m, e, hr, hv⟩ := Double.round_le_nat (m1 * m2 * 2 ^ (e1 + e2).toNat)
    (2 ^ (-(e1 + e2)).toNat) Y (by positivity) hY h2
  exact ⟨m, e, hr, hv⟩

/-- The rate `100 * (double(h) / double(s))` of `hitRates`, for 64-bit counts
`h ≤ s` with `s` positive, is a finite double between 0 and 100. -/
theorem rate_is_percentage (h s : Nat) (hs : 0 < s) (hle : h ≤ s) (h64 : s < 2 ^ 64) :
    ∃ v, Double.toRat (Double.mul (Double.ofNat 100)
        (Double.div (Double.ofNat h) (Double.ofNat s))) = some v ∧ 0 ≤ v ∧ v ≤ 100 := by
  have hquot : ∃ m e, Double.div (Double.ofNat h) (Double.ofNat s) = Double.finite m e ∧
      (m : ℚ) * (2 : ℚ) ^ e ≤ 1 := by
    rcases Nat.eq_zero_or_pos h with h0 | hpos
    · subst h0
      obtain ⟨m2, e2, hr2, hnz2, _⟩ := Double.ofNat_spec s hs h64
      have hz : Double.ofNat 0 = Double.finite 0 (-1074) := by decide
      rw [hz, hr2]
      exact Double.div_le_one 0 m2 (-1074) e2 hnz2 (by
        have : (0 : ℚ) ≤ (m2 : ℚ) * (2 : ℚ) ^ e2 := by positivity
        simpa using this)
    · obtain ⟨m1, e1, m2, e2, hr1, hr2, hnz2, hv⟩ := Double.ofNat_mono h s hpos hle h64
      rw [hr1, hr2]
      exact Double.div_le_one m1 m2 e1 e2 hnz2 hv
  obtain ⟨m, e, hq, hqv⟩ := hquot
  obtain ⟨mh, eh, hh, hhv⟩ := Double.ofNat_exact 100 (by norm_num)
  rw [hq, hh]
  have hprod : ((mh : ℚ) * (2 : ℚ) ^ eh) * ((m : ℚ) * (2 : ℚ) ^ e) ≤ ((100 : Nat) : ℚ) := by
    rw [hhv]
    have hnn : (0 : ℚ) ≤ (m : ℚ) * (2 : ℚ) ^ e := by positivity
    push_cast
    nlinarith
  obtain ⟨m', e', hr, hv⟩ := Double.mul_le_nat mh m 100 eh e (by norm_num) hprod
  rw [hr]
  refine ⟨_, rfl, by positivity, ?_⟩
  simpa using hv

/-! ### C8 -/

/-- The lifetime rate as `hitRates` computes it. -/
theorem hitRates_lifetime (findHit : Nat) (c : Cache) :
    (hitRates findHit c).1 =
      if (c.findMisses + c.findHits) % 2 ^ 64 > 0 then
        Double.mul (Double.ofNat 100)
          (Double.div (Double.ofNat c.findHits)
            (Double.ofNat ((c.findHits + c.findMisses) % 2 ^ 64)))
      else Double.nan := rfl

/-- The windowed rate of a two-entry report. -/
theorem hitRates_windowed_pair (findHit : Nat) (c : Cache) (a b : Nat × Nat)
    (hen : c.enableWindowedStats = true) (hst : c.findStats = some [a, b]) :
    (hitRates findHit c).2 =
      if ((if a.1 = findHit then a.2 else b.2) + (if a.1 = findHit then b.2 else a.2)) % 2 ^ 64 > 0
      then Double.mul (Double.ofNat 100)
        (Double.div (Double.ofNat (if a.1 = findHit then a.2 else b.2))
          (Double.ofNat
            (((if a.1 = findHit then a.2 else b.2) + (if a.1 = findHit then b.2 else a.2))
              % 2 ^ 64)))
      else Double.nan := by
  obtain ⟨a1, a2⟩ := a
  obtain ⟨b1, b2⟩ := b
  unfold hitRates
  simp only [hen, hst, if_true]

/-- The doubles 100.0 and 0.0. -/
theorem Double.hundred_and_zero :
    Double.toRat (Double.ofNat 100) = some 100 ∧ Double.toRat (Double.ofNat 0) = some 0 := by
  have h100 : Double.ofNat 100 = Double.finite (100 * 2 ^ 46) (-46) := by decide
  have h0 : Double.ofNat 0 = Double.finite 0 (-1074) := by decide
  rw [h100, h0]
  simp only [Double.toRat]
  constructor
  · norm_num
  · simp

/-! ### C9 -/

set_option maxRecDepth 100000 in
/-- C9, refuted as stated.  With `findHits = 2 ^ 64 - 1` and `findMisses = 2`
the 64-bit sum of the two counters wraps to 1, so the lifetime rate is defined
and is the double `100 * 2 ^ 64`, outside `[0, 100]`.  And with one hit and
two misses the rate is the double nearest the quotient, `0x1.0aaaaaaaaaaaap+5`,
not the rational number `100 / 3`. -/
theorem hitRates_wrap_counterexample :
    wrappedCache.findHits + wrappedCache.findMisses ≠ 0 ∧
    (hitRates 1 wrappedCache).1 = Double.finite (25 * 2 ^ 48) 18 ∧
    Double.toRat (Double.finite (25 * 2 ^ 48) 18) = some (100 * 2 ^ 64) ∧
    ¬ ((100 * 2 ^ 64 : ℚ) ≤ 100) ∧
    (hitRates 1 oneInThreeCache).1 = Double.finite 4691249611844266 (-47) ∧
    Double.toRat (Double.finite 4691249611844266 (-47)) ≠ some (100 * 1 / (1 + 2)) := by
  refine ⟨by decide, by decide, ?_, by norm_num, by decide, ?_⟩
  · simp only [Double.toRat]
    norm_num
  · simp only [Double.toRat]
    norm_num

/-- C9 (amended): provided the sums the code forms do not wrap, that is
`findHits + findMisses < 2 ^ 64` and the two frequencies of a two-entry report
add up to less than `2 ^ 64`: the lifetime rate is NaN exactly when
`findHits + findMisses = 0` and is otherwise the double
`100 * (double(findHits) / double(findHits + findMisses))`; the windowed rate is
NaN when windowed stats are disabled, there is no buffer or the report is
empty, is 100.0 (resp. 0.0) for a report with the single code `findHit` (resp.
a single other code), and for a report with `findHit` at frequency `h` and
another code at frequency `m`, in either order, is the double
`100 * (double(h) / double(h + m))`; every rate that is not NaN is finite and
lies in `[0, 100]`. -/
theorem hitRates_are_percentages (findHit : Nat) (c : Cache)
    (hlife : c.findHits + c.findMisses < 2 ^ 64)
    (hwin : ∀ a b, c.findStats = some [a, b] → a.2 + b.2 < 2 ^ 64) :
    (hitRates findHit c).1 =
      (if c.findHits + c.findMisses = 0 then Double.nan
       else Double.mul (Double.ofNat 100)
        (Double.div (Double.ofNat c.findHits) (Double.ofNat (c.findHits + c.findMisses)))) ∧
    ((c.enableWindowedStats = false ∨ c.findStats = none ∨ c.findStats = some []) →
      (hitRates findHit c).2 = Double.nan) ∧
    (∀ code freq, c.enableWindowedStats = true → c.findStats = some [(code, freq)] →
      (hitRates findHit c).2 = (if code = findHit then Double.ofNat 100 else Double.ofNat 0)) ∧
    (∀ code h m, c.enableWindowedStats = true → code ≠ findHit → 0 < h + m →
      (c.findStats = some [(findHit, h), (code, m)] ∨
        c.findStats = some [(code, m), (findHit, h)]) →
      (hitRates findHit c).2 =
        Double.mul (Double.ofNat 100) (Double.div (Double.ofNat h) (Double.ofNat (h + m)))) ∧
    (∀ r, (r = (hitRates findHit c).1 ∨ r = (hitRates findHit c).2) →
      r = Double.nan ∨ ∃ v, Double.toRat r = some v ∧ 0 ≤ v ∧ v ≤ 100) ∧
    Double.toRat (Double.ofNat 100) = some 100 ∧ Double.toRat (Double.ofNat 0) = some 0 := by
  have hmod : (c.findHits + c.findMisses) % 2 ^ 64 = c.findHits + c.findMisses :=
    Nat.mod_eq_of_lt hlife
  have hlifeEq : (hitRates findHit c).1 =
      (if c.findHits + c.findMisses = 0 then Double.nan
       else Double.mul (Double.ofNat 100)
        (Double.div (Double.ofNat c.findHits) (Double.ofNat (c.findHits + c.findMisses)))) := by
    rw [hitRates_lifetime, Nat.add_comm c.findMisses c.findHits, hmod]
    by_cases h0 : c.findHits + c.findMisses = 0
    · simp [h0]
    · simp [h0, Nat.pos_of_ne_zero h0]
  have hpair : ∀ a b : Nat × Nat, c.enableWindowedStats = true → c.findStats = some [a, b] →
      ∀ hh mm : Nat, hh + mm = a.2 + b.2 →
        (if a.1 = findHit then a.2 else b.2) = hh → (if a.1 = findHit then b.2 else a.2) = mm →
        (hitRates findHit c).2 =
          if hh + mm = 0 then Double.nan
          else Double.mul (Double.ofNat 100)
            (Double.div (Double.ofNat hh) (Double.ofNat (hh + mm))) := by
    intro a b hen hst hh mm hsum e1 e2
    rw [hitRates_windowed_pair findHit c a b hen hst, e1, e2,
      Nat.mod_eq_of_lt (hsum ▸ hwin a b hst)]
    by_cases h0 : hh + mm = 0
    · simp [h0]
    · simp [h0, Nat.pos_of_ne_zero h0]
  refine ⟨hlifeEq, ?_, ?_, ?_, ?_, Double.hundred_and_zero.1, Double.hundred_and_zero.2⟩
  · rintro (h | h | h) <;> unfold hitRates <;> simp [h]
  · intro code freq hen hst
    unfold hitRates
    simp only [hen, hst, if_true]
  · intro code h m hen hne hpos hst
    have hne' : ¬ h + m = 0 := by omega
    rcases hst with hst | hst
    · rw [hpair _ _ hen hst h m rfl (by simp) (by simp)]
      simp only [hne', if_false]
    · rw [hpair _ _ hen hst h m (by simp [Nat.add_comm]) (by simp [hne]) (by simp [hne])]
      simp only [hne', if_false]
  · intro r hr
    rcases hr with hr | hr
    · rw [hlifeEq] at hr
      by_cases h0 : c.findHits + c.findMisses = 0
      · left; simpa [h0] using hr
      · right
        simp only [h0, if_false] at hr
        rw [hr]
        exact rate_is_percentage _ _ (Nat.pos_of_ne_zero h0) (Nat.le_add_right _ _) hlife
    · by_cases hen : c.enableWindowedStats = true
      · cases hst : c.findStats with
        | none => left; rw [hr]; unfold hitRates; simp [hen, hst]
        | some l =>
          match l, hst with
          | [], hst => left; rw [hr]; unfold hitRates; simp [hen, hst]
          | [(code, freq)], hst =>
            right
            have : (hitRates findHit c).2
                = (if code = findHit then Double.ofNat 100 else Double.ofNat 0) := by
              unfold hitRates
              simp only [hen, hst, if_true]
            rw [hr, this]
            split
            · exact ⟨100, Double.hundred_and_zero.1, by norm_num, le_refl _⟩
            · exact ⟨0, Double.hundred_and_zero.2, le_refl _, by norm_num⟩
          | [a, b], hst =>
            have hab := hwin a b hst
            by_cases hc : a.1 = findHit
            · rw [hpair a b hen hst a.2 b.2 rfl (by simp [hc]) (by simp [hc])] at hr
              by_cases h0 : a.2 + b.2 = 0
              · left; simpa [h0] using hr
              · right
                simp only [h0, if_false] at hr
                rw [hr]
                exact rate_is_percentage _ _ (Nat.pos_of_ne_zero h0) (Nat.le_add_right _ _) hab
            · rw [hpair a b hen hst b.2 a.2 (Nat.add_comm _ _) (by simp [hc]) (by simp [hc])] at hr
              by_cases h0 : b.2 + a.2 = 0
              · left; simpa [h0] using hr
              · right
                simp only [h0, if_false] at hr
                rw [hr]
                exact rate_is_percentage _ _ (Nat.pos_of_ne_zero h0) (Nat.le_add_right _ _)
                  (by omega)
          | _ :: _ :: _ :: _, hst => left; rw [hr]; unfold hitRates; simp [hen, hst]
      · have hen' : c.enableWindowedStats = false := by simpa using hen
        left; rw [hr]; unfold hitRates; simp [hen']

set_option maxRecDepth 100000 in
/-- C9 (amended) at the sample cache: three hits and one miss, both over the
lifetime and in the window, give the double 75.0. -/
theorem hitRates_are_percentages_witness :
    sampleCache.findHits + sampleCache.findMisses < 2 ^ 64 ∧
    (hitRates 1 sampleCache).1
      = Double.mul (Double.ofNat 100) (Double.div (Double.ofNat 3) (Double.ofNat 4)) ∧
    (hitRates 1 sampleCache).2
      = Double.mul (Double.ofNat 100) (Double.div (Double.ofNat 3) (Double.ofNat (3 + 1))) ∧
    Double.toRat (Double.mul (Double.ofNat 100) (Double.div (Double.ofNat 3) (Double.ofNat 4)))
      = some 75 := by
  have h := hitRates_are_percentages 1 sampleCache (by decide)
    (by intro a b hab
        simp only [sampleCache, Option.some.injEq, List.cons.injEq, and_true] at hab
        rw [← hab.1, ← hab.2]; decide)
  refine ⟨by decide, ?_, ?_, ?_⟩
  · rw [h.1]; rfl
  · exact h.2.2.2.1 2 3 1 rfl (by decide) (by decide) (Or.inl rfl)
  · have h75 : Double.mul (Double.ofNat 100) (Double.div (Double.ofNat 3) (Double.ofNat 4))
        = Double.finite (75 * 2 ^ 46) (-46) := by decide
    rw [h75]
    simp only [Double.toRat]
    norm_num

/-! ### The free-memory sweep -/

/-- A byte count below `2 ^ 63` converts to itself. -/
theorem toInt64_of_lt (n : Nat) (h : n < 2 ^ 63) : toInt64 n = (n : Int) := by
  have h64 : n < 2 ^ 64 := lt_trans h (by norm_num)
  unfold toInt64
  rw [Nat.mod_eq_of_lt h64, if_pos h]

/-- `reclaimMemory(0)` changes nothing and reports whether usage is within the
soft limit. -/
theorem reclaimMemory_zero (c : Cache) :
    reclaimMemory c 0 = (c, decide (c.metadata.softUsageLimit ≥ c.metadata.usage)) := by
  unfold reclaimMemory Metadata.adjustUsageIfAllowed
  have h0 : toInt64 0 = 0 := toInt64_of_lt 0 (by norm_num)
  simp only [h0, neg_zero, lt_self_iff_false, if_false, Int.natAbs_zero, Nat.add_zero]
  split <;> rfl

/-- `reclaimMemory(r)` for a positive byte count below `2 ^ 63` lowers usage
by `r`. -/
theorem reclaimMemory_pos (c : Cache) (r : Nat) (hpos : 0 < r) (hr : r < 2 ^ 63) :
    reclaimMemory c r
      = ({ c with metadata := { c.metadata with usage := c.metadata.usage - r } },
          decide (c.metadata.softUsageLimit ≥ c.metadata.usage - r)) := by
  unfold reclaimMemory Metadata.adjustUsageIfAllowed
  have hneg : -(toInt64 r) < 0 := by rw [toInt64_of_lt r hr]; omega
  have habs : (-(toInt64 r)).natAbs = r := by rw [toInt64_of_lt r hr]; simp
  simp only [hneg, if_true, habs]

/-! ### C10 -/

/-- C10 (sweep control of `freeMemory`, whose precondition is that `Resizing`
is set).  If the cache is shut down at entry `freeMemory` returns false and
changes nothing, usage included.  If usage is within the soft limit at entry it
returns true and changes nothing, without running the bucket sweep.  Otherwise
it runs the sweep `freeMemoryWhile` with the callback.  The callback, given a
reclaimed byte count `r > 0` (below `2 ^ 63`, the range of the conversion in
`reclaimMemory`), lowers usage by `r` and returns false (stop) when the new
usage is within the soft limit; in every other case, `r = 0` included, where
usage is untouched, it returns true (continue) exactly when the cache is not
shut down. -/
theorem freeMemory_sweep_control
    (freeMemoryWhile : (Cache → Nat → Cache × Bool) → Cache → Cache × Bool) (c : Cache)
    (r : Nat) :
    (c.shutdown = true → freeMemory freeMemoryWhile c = (c, false)) ∧
    (c.shutdown = false → c.metadata.usage ≤ c.metadata.softUsageLimit →
      freeMemory freeMemoryWhile c = (c, true)) ∧
    (c.shutdown = false → c.metadata.softUsageLimit < c.metadata.usage →
      freeMemory freeMemoryWhile c = freeMemoryWhile freeMemoryCallback c) ∧
    (0 < r → r < 2 ^ 63 →
      (freeMemoryCallback c r).1
        = { c with metadata := { c.metadata with usage := c.metadata.usage - r } } ∧
      (r ≤ c.metadata.usage →
        (freeMemoryCallback c r).1.metadata.usage + r = c.metadata.usage) ∧
      (freeMemoryCallback c r).2
        = (if c.metadata.usage - r ≤ c.metadata.softUsageLimit then false else !c.shutdown)) ∧
    freeMemoryCallback c 0 = (c, !c.shutdown) := by
  refine ⟨?_, ?_, ?_, ?_, ?_⟩
  · intro h; unfold freeMemory; simp [isShutdown, h]
  · intro h hu
    unfold freeMemory
    simp [isShutdown, h, reclaimMemory_zero, hu]
  · intro h hu
    unfold freeMemory
    simp [isShutdown, h, reclaimMemory_zero, hu]
  · intro hpos hr
    unfold freeMemoryCallback
    simp only [hpos, if_true, reclaimMemory_pos c r hpos hr, isShutdown]
    refine ⟨?_, ?_, ?_⟩
    · split <;> rfl
    · intro hle
      split <;> exact Nat.sub_add_cancel hle
    · by_cases hc : c.metadata.usage - r ≤ c.metadata.softUsageLimit
      · simp [hc]
      · simp [hc]
  · unfold freeMemoryCallback; simp [isShutdown]

/-- C10 at the sample cache while resizing, usage 950 over the soft limit 900:
a visit that reclaims 60 bytes brings usage to 890 and stops the sweep. -/
theorem freeMemory_sweep_control_witness :
    resizingCache.shutdown = false ∧
    resizingCache.metadata.softUsageLimit < resizingCache.metadata.usage ∧
    freeMemory (fun cb c => cb c 60) resizingCache = freeMemoryCallback resizingCache 60 ∧
    (0 < 60) ∧ (60 < 2 ^ 63) ∧
    (freeMemoryCallback resizingCache 60).1.metadata.usage = 890 ∧
    (freeMemoryCallback resizingCache 60).2 = false := by
  have h := freeMemory_sweep_control (fun cb c => cb c 60) resizingCache 60
  have hcb := h.2.2.2.1 (by norm_num) (by norm_num)
  refine ⟨rfl, by decide, h.2.2.1 rfl (by decide), by norm_num, by norm_num, ?_, ?_⟩
  · rw [hcb.1]; rfl
  · rw [hcb.2.2]; rfl

/-! ### The exponent loop past its range -/

/-- Past `2 ^ 63` buckets the exit test fails at every exponent up to 63, so
the loop runs into the shift by 64 (or out of fuel) and has no result. -/
theorem requestedLogSizeLoop_none (n : Nat) (hn : 2 ^ 63 < n) :
    ∀ fuel k, requestedLogSizeLoop n fuel k = none := by
  intro fuel
  induction fuel with
  | zero => intro k; rfl
  | succ f ih =>
    intro k
    simp only [requestedLogSizeLoop]
    by_cases hk : k < 64
    · have h63 : (2 : Nat) ^ k ≤ 2 ^ 63 := Nat.pow_le_pow_right (by norm_num) (by omega)
      have h64 : (2 : Nat) ^ k < 2 ^ 64 := lt_of_le_of_lt h63 (by norm_num)
      rw [if_pos hk, Nat.mod_eq_of_lt h64, if_pos (lt_of_le_of_lt h63 hn)]
      exact ih (k + 1)
    · rw [if_neg hk]

/-! ### C11 -/

/-- C11 (the exponent loop of `sizeHint`, 64-bit unsigned arithmetic).  For
every bucket count `numBuckets ≤ 2 ^ 63` the loop terminates (any fuel of 64
iterations or more is enough) and yields the least `k` with
`2 ^ k ≥ numBuckets`; that `k` is at most 63; and the result is monotonically
non-decreasing in the bucket count.  Bucket counts 0 and 1 both yield 0, below
the table minimum `minLogSize = 8`.  The bound is needed: past `2 ^ 63` the
exit test fails at every `k ≤ 63`, and the loop has no result. -/
theorem requestedLogSizeLoop_least_exponent (numBuckets : Nat) :
    (numBuckets ≤ 2 ^ 63 →
      ∃ k, (∀ fuel, 64 ≤ fuel → requestedLogSizeLoop numBuckets fuel 0 = some k) ∧
        k ≤ 63 ∧ numBuckets ≤ 2 ^ k ∧ (∀ j, numBuckets ≤ 2 ^ j → k ≤ j) ∧
        ∀ m, m ≤ numBuckets →
          ∃ k', requestedLogSizeLoop m 65 0 = some k' ∧ k' ≤ k) ∧
    (requestedLogSizeLoop 0 65 0 = some 0 ∧ requestedLogSizeLoop 1 65 0 = some 0 ∧
      0 < minLogSize) ∧
    (2 ^ 63 < numBuckets →
      (∀ k, k ≤ 63 → 2 ^ k % 2 ^ 64 < numBuckets) ∧
      ∀ fuel, requestedLogSizeLoop numBuckets fuel 0 = none) := by
  have htwo : 1 < 2 := by norm_num
  refine ⟨?_, ⟨?_, ?_, by decide⟩, ?_⟩
  · intro hn
    have hL : Nat.clog 2 numBuckets ≤ 63 := (Nat.le_pow_iff_clog_le htwo).1 hn
    refine ⟨Nat.clog 2 numBuckets, ?_, hL, Nat.le_pow_clog htwo numBuckets,
      fun j hj => (Nat.le_pow_iff_clog_le htwo).1 hj, ?_⟩
    · intro fuel hfuel
      exact requestedLogSizeLoop_reaches numBuckets (Nat.clog 2 numBuckets) hL
        (Nat.le_pow_clog htwo numBuckets)
        (fun j hj => (Nat.pow_lt_iff_lt_clog htwo).2 hj) (Nat.clog 2 numBuckets) 0 fuel
        (by omega) (by omega)
    · intro m hm
      exact ⟨Nat.clog 2 m, requestedLogSizeLoop_eq_clog m (le_trans hm hn),
        Nat.clog_mono_right 2 hm⟩
  · rw [requestedLogSizeLoop_eq_clog 0 (by norm_num)]; simp [Nat.clog]
  · rw [requestedLogSizeLoop_eq_clog 1 (by norm_num)]; simp [Nat.clog]
  · intro hn
    refine ⟨?_, fun fuel => requestedLogSizeLoop_none numBuckets hn fuel 0⟩
    intro k hk
    have h63 : (2 : Nat) ^ k ≤ 2 ^ 63 := Nat.pow_le_pow_right (by norm_num) hk
    have h64 : (2 : Nat) ^ k < 2 ^ 64 := lt_of_le_of_lt h63 (by norm_num)
    rw [Nat.mod_eq_of_lt h64]
    exact lt_of_le_of_lt h63 hn

/-- C11 at bucket counts 5 (within the bound) and `2 ^ 63 + 1` (past it). -/
theorem requestedLogSizeLoop_least_exponent_witness :
    (5 ≤ 2 ^ 63) ∧
    (∃ k, (∀ fuel, 64 ≤ fuel → requestedLogSizeLoop 5 fuel 0 = some k) ∧
        k ≤ 63 ∧ 5 ≤ 2 ^ k ∧ (∀ j, 5 ≤ 2 ^ j → k ≤ j) ∧
        ∀ m, m ≤ 5 → ∃ k', requestedLogSizeLoop m 65 0 = some k' ∧ k' ≤ k) ∧
    (2 ^ 63 < 2 ^ 63 + 1) ∧
    requestedLogSizeLoop (2 ^ 63 + 1) 65 0 = none :=
  ⟨by norm_num, (requestedLogSizeLoop_least_exponent 5).1 (by norm_num), by norm_num,
    ((requestedLogSizeLoop_least_exponent (2 ^ 63 + 1)).2.2 (by norm_num)).2 65⟩

end ArangoCache
